import Mathlib

/-!
A formal model of the Memento backend's RAG memory subsystem and quiz
subsystem (`backend/app/google_rag_system.py` and `backend/app/quiz_system.py`),
embedded shallowly in Lean:

* Python floats are idealized as exact rationals (ℚ); the one place where
  IEEE semantics is observable (0/0 in the cosine computation) is modeled
  explicitly by a `nan` value.
* Python dicts become structures whose possibly-absent keys are `Option`
  fields.
* External collaborators (embedding model, speech-to-text, sentiment API,
  generative model, Firestore documents) become explicit parameters.
* `list.sort(key=..., reverse=True)` is modeled by CPython's own
  small-list algorithm (one `count_run`, then binary insertion, around a
  double reversal), with IEEE comparison semantics — NaN keys compare
  false both ways, so such a sort need not order the other records.
-/

namespace Memento

/-! ### Models of the Python `str` operations used by the code.

All operations work on `String.data : List Char` by structural recursion so
that concrete runs reduce inside the kernel.  Only ASCII whitespace is
handled (the inputs exercised here contain no exotic whitespace). -/

/-- Whitespace recognised by Python `str.strip` (ASCII subset). -/
def isSpaceChar (c : Char) : Bool :=
  c = ' ' || c = '\t' || c = '\n' || c = '\r'

/-- Model of Python `str.strip()`. -/
def pyStrip (s : String) : String :=
  ⟨((s.data.dropWhile isSpaceChar).reverse.dropWhile isSpaceChar).reverse⟩

/-- Split a character list at every newline: the model of `str.split('\n')`. -/
def splitNL : List Char → List (List Char)
  | [] => [[]]
  | c :: rest =>
    let parts := splitNL rest
    if c = '\n' then [] :: parts
    else
      match parts with
      | [] => [[c]]
      | h :: t => (c :: h) :: t

/-- Model of Python `str.split('\n')`. -/
def pyLines (s : String) : List String :=
  (splitNL s.data).map (fun l => ⟨l⟩)

def startsWithL : List Char → List Char → Bool
  | _, [] => true
  | [], _ :: _ => false
  | c :: s, p :: ps => c = p && startsWithL s ps

/-- Model of Python `str.startswith(pat)`. -/
def pyStartsWith (s pat : String) : Bool :=
  startsWithL s.data pat.data

def afterColonL : List Char → List Char
  | [] => []
  | c :: rest => if c = ':' then rest else afterColonL rest

/-- Model of Python `line.split(':', 1)[1]`: everything after the first
colon.  The callers guard with `':' in line` or `startswith("X:")`; on a
colon-free string (where Python would raise IndexError) we return `""`. -/
def pyAfterColon (s : String) : String :=
  ⟨afterColonL s.data⟩

/-- Model of Python `c in s` for a single character. -/
def pyContains (s : String) (c : Char) : Bool :=
  s.data.contains c

def lowerChar (c : Char) : Char :=
  if 'A' ≤ c && c ≤ 'Z' then Char.ofNat (c.toNat + 32) else c

/-- Model of Python `str.lower()` (ASCII letters). -/
def pyLower (s : String) : String :=
  ⟨s.data.map lowerChar⟩

/-- Model of Python slicing `s[:n]`. -/
def pyTake (s : String) (n : ℕ) : String :=
  ⟨s.data.take n⟩

/-- Model of Python slicing `s[n:]`. -/
def pyDrop (s : String) (n : ℕ) : String :=
  ⟨s.data.drop n⟩

/-! ### The quiz response parser (`MementoQuizSystem._parse_quiz_response`). -/

/-- A parsed multiple-choice question.  `_parse_quiz_response` builds these
as dicts: `text`, `options` and `id` are always set when a question is
created at a `Q...:` line, the marker fields stay absent unless their marker
line occurred, hence `Option`.  The Python code ids questions with
`uuid.uuid4()`; the model renders the freshness of those ids by numbering
questions consecutively. -/
structure QuizQuestion where
  qid : ℕ
  text : String
  options : List (String × String)
  correctAnswer : Option String
  explanation : Option String
  category : Option String
deriving DecidableEq, Repr

/-- The parser's loop state: flushed questions, the dict being filled
(`current_question`; `none` models the initial headless `{}`, whose field
updates Python performs but always discards since it can never gain a
`text` key), and the id counter standing in for uuid generation. -/
structure ParseState where
  done : List QuizQuestion
  cur : Option QuizQuestion
  ctr : ℕ
deriving DecidableEq, Repr

/-- `if current_question and 'text' in current_question: questions.append(...)`,
where every question the model ever holds in `cur` has text. -/
def flushCur (st : ParseState) : List QuizQuestion :=
  st.done ++ st.cur.toList

/-- `{'options': [], 'text': ..., 'id': str(uuid.uuid4())}` -/
def blankQuestion (n : ℕ) (txt : String) : QuizQuestion :=
  ⟨n, txt, [], none, none, none⟩

/-- `line.startswith(('A.', 'B.', 'C.', 'D.'))` -/
def isOptionLine (line : String) : Bool :=
  pyStartsWith line "A." || pyStartsWith line "B." ||
    pyStartsWith line "C." || pyStartsWith line "D."

/-- Field updates on `current_question` (a no-op in the headless state,
whose updates Python performs on a dict it then always discards). -/
def modifyCur (st : ParseState) (f : QuizQuestion → QuizQuestion) : ParseState :=
  match st.cur with
  | some q => { st with cur := some (f q) }
  | none => st

/-- The body of the parser's `for line in lines` loop, after
`line = line.strip()`. -/
def processStripped (st : ParseState) (line : String) : ParseState :=
  if line = "" then st
  else if pyStartsWith line "Q" && pyContains line ':' then
    { done := flushCur st,
      cur := some (blankQuestion st.ctr (pyStrip (pyAfterColon line))),
      ctr := st.ctr + 1 }
  else if isOptionLine line then
    modifyCur st (fun q =>
      { q with options := q.options ++ [(pyTake line 1, pyStrip (pyDrop line 2))] })
  else if pyStartsWith line "CORRECT:" then
    modifyCur st (fun q => { q with correctAnswer := some (pyStrip (pyAfterColon line)) })
  else if pyStartsWith line "EXPLANATION:" then
    modifyCur st (fun q => { q with explanation := some (pyStrip (pyAfterColon line)) })
  else if pyStartsWith line "CATEGORY:" then
    modifyCur st (fun q => { q with category := some (pyLower (pyStrip (pyAfterColon line))) })
  else st

/-- One iteration of the parser's `for line in lines` loop. -/
def processLine (st : ParseState) (rawLine : String) : ParseState :=
  processStripped st (pyStrip rawLine)

/-- Whether a raw line opens a new question
(`line.startswith('Q') and ':' in line` on the stripped line, after the
empty-line skip). -/
def isQMarkerLine (rawLine : String) : Bool :=
  !(pyStrip rawLine == "") && (pyStartsWith (pyStrip rawLine) "Q" && pyContains (pyStrip rawLine) ':')

/-- Model of `MementoQuizSystem._parse_quiz_response`. -/
def parse_quiz_response (responseText : String) : List QuizQuestion :=
  flushCur ((pyLines (pyStrip responseText)).foldl processLine ⟨[], none, 0⟩)

/-! ### The quiz session and `record_quiz_answer`. -/

/-- One element of the session's `answers` array. The `datetime.now()`
timestamp is elided (no property here concerns it). -/
structure QuizAnswer where
  questionId : ℕ
  selectedOption : String
  correctOption : Option String
  isCorrect : Bool
deriving DecidableEq, Repr

/-- The `gameSessions` document, restricted to the fields the verified
properties concern (`patientId`, `quizType`, `patientName` and the
timestamps are carried along unchanged by the code and are elided). -/
structure QuizSession where
  questions : List QuizQuestion
  answers : List QuizAnswer
  status : String
  score : Option ℕ
deriving DecidableEq, Repr

/-- The session document `generate_quiz` stores: `status = "active"`, no
`answers` key (which `record_quiz_answer` reads back as `[]`), no score. -/
def initSession (qs : List QuizQuestion) : QuizSession :=
  ⟨qs, [], "active", none⟩

/-- `is_correct = selected_option == correct_option`.  When the parsed
question has no `correctAnswer`, Python compares the selected string with
`None`, which is `False` for every string. -/
def answerIsCorrect (q : QuizQuestion) (selectedOption : String) : Bool :=
  match q.correctAnswer with
  | some c => selectedOption = c
  | none => false

/-- The success payload of `record_quiz_answer`. -/
structure RecordResult where
  isCorrect : Bool
  correctOption : Option String
  explanation : String
  allQuestionsAnswered : Bool
deriving DecidableEq, Repr

/-- Model of `MementoQuizSystem.record_quiz_answer` acting on one stored
session document: returns the updated document together with the returned
payload (`Except.error` for the `{"error": ...}` dictionaries).  The score
`int((correct_count / len(questions)) * 100)` is exact-rational truncation,
i.e. floor division.  The best-effort rolling `memoryScore` update touches
only the user-profile document, not the session, and is not modeled. -/
def record_quiz_answer (s : QuizSession) (questionId : ℕ) (selectedOption : String) :
    QuizSession × Except String RecordResult :=
  match s.questions.find? (fun q => q.qid == questionId) with
  | none => (s, .error "Question not found in this quiz")
  | some q =>
    match s.answers.find? (fun a => a.questionId == questionId) with
    | some _ => (s, .error "This question has already been answered")
    | none =>
      let isCorr := answerIsCorrect q selectedOption
      let answers := s.answers ++ [⟨questionId, selectedOption, q.correctAnswer, isCorr⟩]
      if answers.length = s.questions.length then
        let correctCount := (answers.filter (fun a => a.isCorrect)).length
        let score := (correctCount * 100) / s.questions.length
        ({ s with answers := answers, status := "completed", score := some score },
          .ok ⟨isCorr, q.correctAnswer, q.explanation.getD "", true⟩)
      else
        ({ s with answers := answers }, .ok ⟨isCorr, q.correctAnswer, q.explanation.getD "", false⟩)

/-- Sessions reachable through the code: created by `generate_quiz` from a
parsed generative-model response (the response text is unconstrained), then
mutated only by `record_quiz_answer`. -/
inductive ReachableSession : QuizSession → Prop
  | init (raw : String) : ReachableSession (initSession (parse_quiz_response raw))
  | step (s : QuizSession) (questionId : ℕ) (sel : String) :
      ReachableSession s → ReachableSession (record_quiz_answer s questionId sel).1

/-- The session invariant (amended at the `status` clause: a session whose
parsed question list came out empty stays `"active"` forever with
`0 = len(answers) = len(questions)`, so `completed ↔ answers = questions`
holds only together with `0 < questions`).  The first three clauses also
record that every answer answers a distinct existing question. -/
def SessionInv (s : QuizSession) : Prop :=
  (s.questions.map QuizQuestion.qid).Nodup ∧
  (s.answers.map QuizAnswer.questionId).Nodup ∧
  (∀ a ∈ s.answers, a.questionId ∈ s.questions.map QuizQuestion.qid) ∧
  (s.status = "completed" ↔ 0 < s.questions.length ∧ s.answers.length = s.questions.length)

/-! ### Similarity values and the manual-fallback retrieval paths. -/

abbrev Vec := List ℚ

/-- `np.dot` on two 1-D arrays of equal length (every call site guards the
length, since a mismatch raises ValueError). -/
def dot (u v : Vec) : ℚ :=
  ((u.zip v).map (fun p => p.1 * p.2)).sum

def normSq (v : Vec) : ℚ :=
  dot v v

/-- The value `float(np.dot(m, q) / (np.linalg.norm(m) * np.linalg.norm(q)))`
kept in exact form: for nonzero norms the real value is `d / √P` where
`d = dot m q` and `P = normSq m * normSq q > 0`.  When a norm is zero the
numerator is forced to zero too, and IEEE arithmetic yields `0.0/0.0 = NaN`
(numpy emits a RuntimeWarning; no exception is raised). -/
inductive SimVal where
  | nan : SimVal
  | val (d P : ℚ) : SimVal
deriving DecidableEq, Repr

def mkSim (m q : Vec) : SimVal :=
  let P := normSq m * normSq q
  if P = 0 then .nan else .val (dot m q) P

/-- Decision procedure for `d₁/√P₁ ≤ d₂/√P₂` on proper values with
positive `P₁`, `P₂`, by sign analysis and cross-multiplied squares
(`simLe_eq_true_iff_real` below proves it is exactly the real-number
comparison).  This is *not* the comparison the program performs — that is
`simLt` below, whose NaN rows follow IEEE; `simLe`'s clauses for `nan` and
for an ill-formed non-positive `P` (which `mkSim` never produces and
`simLt` never consults) are junk values that only make the function
total. -/
def simLe : SimVal → SimVal → Bool
  | .nan, _ => true
  | .val _ _, .nan => false
  | .val d1 P1, .val d2 P2 =>
    if P1 ≤ 0 then true
    else if P2 ≤ 0 then false
    else if d1 ≤ 0 then (if 0 ≤ d2 then true else decide (d2 ^ 2 * P1 ≤ d1 ^ 2 * P2))
    else if d2 ≤ 0 then false
    else decide (d1 ^ 2 * P2 ≤ d2 ^ 2 * P1)

/-- IEEE `<` on similarity values — the comparison CPython's `list.sort`
actually performs on the float keys: every comparison involving NaN is
false; on proper values it decides the strict real comparison
`d₁/√P₁ < d₂/√P₂` (see `simLt_eq_true_iff_real`).  An ill-formed
non-positive `P`, never produced by `mkSim`, is treated like NaN. -/
def simLt : SimVal → SimVal → Bool
  | .nan, _ => false
  | .val _ _, .nan => false
  | .val d1 P1, .val d2 P2 =>
    if P1 ≤ 0 ∨ P2 ≤ 0 then false
    else !(simLe (.val d2 P2) (.val d1 P1))

/-- "`sa`'s similarity is at least `sb`'s", read on the real cosine values
`d / √P`; pairs involving `nan` (a zero-norm vector, where the float
similarity is NaN and no order claim is meaningful) carry no constraint. -/
def simRealGe (sa sb : SimVal) : Prop :=
  ∀ d1 P1 d2 P2, sa = .val d1 P1 → sb = .val d2 P2 → 0 < P1 → 0 < P2 →
    (d2 : ℝ) / Real.sqrt (P2 : ℝ) ≤ (d1 : ℝ) / Real.sqrt (P1 : ℝ)

/-- The numerator of a proper similarity value (`0` on `NaN`, where it is
never consulted). -/
def simD : SimVal → ℚ
  | .nan => 0
  | .val d _ => d

/-- The squared-norm product of a proper similarity value (`0` on `NaN`,
where it is never consulted). -/
def simP : SimVal → ℚ
  | .nan => 0
  | .val _ P => P

/-- One document of `patientMemoryVectors/{patient_id}/chunks`, restricted
to the keys retrieval reads.  `payload` stands in for the remaining keys of
the dict (metadata, timestamps, ...) and serves to distinguish records. -/
structure Chunk where
  vector : Option Vec
  summary : Option String
  payload : ℕ
deriving DecidableEq, Repr

/-- A memory dict after the loop stored `memory["similarity"]` into it. -/
structure Scored where
  chunk : Chunk
  sim : SimVal
deriving DecidableEq, Repr

/-- The embedding collaborator, `generate_embedding`; `none` models the call
raising (`except Exception` at the re-embedding site). -/
abbrev Embed := String → Option Vec

/-- The vector the RAG fallback loop ends up comparing for a candidate
whose stored vector is `v`: `v` itself on a matching dimension, otherwise
the re-embedding `generate_embedding(memory["summary"])` — absent when the
`summary` key is missing or the provider raises (`except ... continue`). -/
def effectiveVector (embed : Embed) (queryEmbedding : Vec) (m : Chunk) (v : Vec) : Option Vec :=
  if v.length = queryEmbedding.length then some v
  else
    match m.summary with
    | some s => embed s
    | none => none

/-- One iteration of the RAG fallback scoring loop: skip a missing or empty
(falsy) vector; resolve the effective vector; `np.dot` raises ValueError —
caught by `except ValueError: continue` — when the effective vector still
mismatches the query dimension; otherwise attach the cosine similarity. -/
def ragScoreChunk (embed : Embed) (queryEmbedding : Vec) (m : Chunk) : Option Scored :=
  match m.vector with
  | none => none
  | some v =>
    if v = [] then none
    else
      match effectiveVector embed queryEmbedding m v with
      | none => none
      | some v2 =>
        if v2.length = queryEmbedding.length then some ⟨m, mkSim v2 queryEmbedding⟩
        else none

/-- The candidate-scoring loop of the manual fallback of
`MementoRAGSystem.retrieve_memories` (`memory_scores`). -/
def rag_fallback_scores (embed : Embed) (queryEmbedding : Vec) (chunks : List Chunk) :
    List Scored :=
  chunks.filterMap (ragScoreChunk embed queryEmbedding)

/-! #### CPython `list.sort`, modeled exactly for the small-list regime.

CPython's Timsort on fewer than 64 elements (`minrun = n`) performs
exactly: detect one initial run (`count_run`, reversing a strictly
descending run), then binary-insert every remaining element
(`binarysort`), with no merging.  The definitions below reproduce that
algorithm, including `binarysort`'s exact midpoint arithmetic and its
comparison pattern `if pivot < a[p] then r = p else l = p + 1` — this
matters because a NaN key makes every comparison false, so the sort does
*not* globally order the other records (see the C1 counterexample).  For
64 elements or more CPython merges runs; on NaN-free keys every stable
sort agrees, so the model stays exact there too — a NaN-keyed list of 64
or more elements is the one regime not covered, and nothing proved below
depends on it. -/

variable {α : Type _}

/-- `count_run`'s weakly-ascending extension: grow while
`a[k] < a[k-1]` is false. -/
def countRunAsc (lt : α → α → Bool) : α → List α → List α × List α
  | a, [] => ([a], [])
  | a, b :: rest =>
    if lt b a then ([a], b :: rest)
    else
      match countRunAsc lt b rest with
      | (r, rest2) => (a :: r, rest2)

/-- `count_run`'s strictly-descending extension: grow while
`a[k] < a[k-1]` holds. -/
def countRunDesc (lt : α → α → Bool) : α → List α → List α × List α
  | a, [] => ([a], [])
  | a, b :: rest =>
    if lt b a then
      match countRunDesc lt b rest with
      | (r, rest2) => (a :: r, rest2)
    else ([a], b :: rest)

/-- CPython `count_run`, plus the in-place reversal of a descending run:
`a[1] < a[0]` selects the descending flavour. -/
def initialRun (lt : α → α → Bool) : List α → List α × List α
  | [] => ([], [])
  | [a] => ([a], [])
  | a :: b :: rest =>
    if lt b a then
      match countRunDesc lt b rest with
      | (r, rest2) => ((a :: r).reverse, rest2)
    else
      match countRunAsc lt b rest with
      | (r, rest2) => (a :: r, rest2)

/-- The binary search of CPython `binarysort`: locate the insertion index
of `pivot` within `arr[l:r]` by the exact loop
`p = l + ((r - l) >> 1); if pivot < a[p] then r = p else l = p + 1`.
`fuel = r - l` bounds the iteration count, making the loop structural;
the default of `getD` is never consulted since `l ≤ p < r ≤ |arr|`. -/
def binsearchGo (lt : α → α → Bool) (arr : List α) (pivot : α) : ℕ → ℕ → ℕ → ℕ
  | 0, l, _ => l
  | fuel + 1, l, r =>
    if l < r then
      let p := l + (r - l) / 2
      if lt pivot (arr.getD p pivot) then binsearchGo lt arr pivot fuel l p
      else binsearchGo lt arr pivot fuel (p + 1) r
    else l

/-- CPython `binarysort`: insert each pending element into the growing
sorted prefix at the index the binary search returns. -/
def binarysortLoop (lt : α → α → Bool) : List α → List α → List α
  | sorted, [] => sorted
  | sorted, x :: rest =>
    let i := binsearchGo lt sorted x sorted.length 0 sorted.length
    binarysortLoop lt (sorted.take i ++ x :: sorted.drop i) rest

/-- CPython `list.sort()` (ascending) in the small-list regime: one
`count_run`, then binary insertion of the remainder. -/
def pyListSortAsc (lt : α → α → Bool) (l : List α) : List α :=
  match initialRun lt l with
  | (run, rest) => binarysortLoop lt run rest

/-- `lst.sort(key=..., reverse=True)`: CPython implements `reverse=True`
by reversing the list, sorting ascending (stably), and reversing again. -/
def pyListSortDesc (lt : α → α → Bool) (l : List α) : List α :=
  (pyListSortAsc lt l.reverse).reverse

/-- The key comparison `lambda x: x["similarity"]` induces on records. -/
def scoredLt (a b : Scored) : Bool :=
  simLt a.sim b.sim

/-- `memory_scores.sort(key=lambda x: x["similarity"], reverse=True)`. -/
def sortBySim (l : List Scored) : List Scored :=
  pyListSortDesc scoredLt l

/-- The manual-fallback path of `MementoRAGSystem.retrieve_memories` (the
`except (ImportError, AttributeError)` branch), for an already-computed
query embedding: score, sort by similarity descending, truncate to
`limit`. -/
def rag_retrieve_memories (embed : Embed) (queryEmbedding : Vec)
    (chunks : List Chunk) (limit : ℕ) : List Scored :=
  (sortBySim (rag_fallback_scores embed queryEmbedding chunks)).take limit

/-- One iteration of the quiz-system fallback scoring loop: identical to
`ragScoreChunk` except there is no dimension-mismatch handling at all —
`np.dot` on a mismatched vector raises ValueError, which
`except ValueError: continue` silently skips. -/
def quizScoreChunk (queryEmbedding : Vec) (m : Chunk) : Option Scored :=
  match m.vector with
  | none => none
  | some v =>
    if v = [] then none
    else if v.length = queryEmbedding.length then some ⟨m, mkSim v queryEmbedding⟩
    else none

/-- The candidate-scoring loop of the manual fallback of
`MementoQuizSystem.retrieve_memories`. -/
def quiz_fallback_scores (queryEmbedding : Vec) (chunks : List Chunk) : List Scored :=
  chunks.filterMap (quizScoreChunk queryEmbedding)

/-- The manual-fallback path of `MementoQuizSystem.retrieve_memories`. -/
def quiz_retrieve_memories (queryEmbedding : Vec) (chunks : List Chunk) (limit : ℕ) :
    List Scored :=
  (sortBySim (quiz_fallback_scores queryEmbedding chunks)).take limit

/-! ### Sentiment analysis (`MementoRAGSystem.analyze_sentiment`). -/

/-- The buckets `analyze_sentiment` builds from the Natural Language API
entity list; an input entity is a `(name, type-name)` pair. -/
structure ExtractedEntities where
  people : List String
  locations : List String
  organizations : List String
  other : List String
deriving DecidableEq, Repr

def isOtherEntity (t : String) : Bool :=
  !(t == "PERSON" || t == "LOCATION" || t == "ADDRESS" || t == "ORGANIZATION")

/-- The `for entity in entities_response.entities` bucketing loop. -/
def extractEntities (entities : List (String × String)) : ExtractedEntities where
  people := ((entities.filter (fun e => e.2 == "PERSON")).map (fun e => e.1))
  locations := ((entities.filter (fun e => e.2 == "LOCATION" || e.2 == "ADDRESS")).map (fun e => e.1))
  organizations := ((entities.filter (fun e => e.2 == "ORGANIZATION")).map (fun e => e.1))
  other := ((entities.filter (fun e => isOtherEntity e.2)).map (fun e => e.1))

/-- The category decision: `> 0.25` → positive, `< -0.25` → negative,
else `family` when people were extracted, else `neutral`. -/
def sentimentCategory (score : ℚ) (ents : ExtractedEntities) : String :=
  if 1/4 < score then "positive"
  else if score < -(1/4) then "negative"
  else if 0 < ents.people.length then "family"
  else "neutral"

structure SentimentResult where
  score : ℚ
  magnitude : ℚ
  category : String
  entities : ExtractedEntities
deriving DecidableEq, Repr

/-- Model of `MementoRAGSystem.analyze_sentiment`, as a function of the
Natural Language API outputs (document sentiment score and magnitude, and
the entity list with type names). -/
def analyze_sentiment (score magnitude : ℚ) (entities : List (String × String)) :
    SentimentResult :=
  let ents := extractEntities entities
  ⟨score, magnitude, sentimentCategory score ents, ents⟩

/-! ### Message processing (`process_text_message` / `process_audio_message`)
and conversation retrieval (`MementoQuizSystem.retrieve_conversations`). -/

/-- A message of a `conversations/{patient_id}` document.  Ids are elided;
timestamps are abstract integers. -/
structure ConvMessage where
  sender : String
  content : String
  timestamp : ℤ
  sentiment : Option String
  topics : List String
deriving DecidableEq, Repr

/-- The external collaborator inputs `process_text_message` consumes, one
field per call the method makes.  `generated` is the generative model's
reply text for this request; `embed`, `queryEmbedding` and `chunks` feed
retrieval (in its manual-fallback form). -/
structure TextPipeline where
  patientExists : Bool
  sentimentScore : ℚ
  sentimentMagnitude : ℚ
  sentimentEntities : List (String × String)
  queryEmbedding : Vec
  chunks : List Chunk
  embed : Embed
  generated : String

/-- The observable outcome of one `process_*_message` request: the returned
value (error dict or response text), the conversation document after the
request, how many generative-model calls were made, and the `"message"`
transcript key the audio variant adds. -/
structure ProcessOutcome where
  result : Except String String
  conv : List ConvMessage
  genCalls : ℕ
  transcript : Option String
deriving Repr

/-- Model of `MementoRAGSystem.process_text_message`: patient lookup,
sentiment analysis, memory retrieval, one generation call, speech
synthesis, then `store_conversation` appends the patient message and the
AI reply in a single update.  The prompt and audio byte strings are not
modeled (no claim concerns their contents). -/
def process_text_message (p : TextPipeline) (now : ℤ) (conv : List ConvMessage)
    (message : String) : ProcessOutcome :=
  if !p.patientExists then ⟨.error "Patient not found", conv, 0, none⟩
  else
    let sent := analyze_sentiment p.sentimentScore p.sentimentMagnitude p.sentimentEntities
    let _memories := rag_retrieve_memories p.embed p.queryEmbedding p.chunks 5
    let response := p.generated
    let newConv := conv ++
      [⟨"patient", message, now, some sent.category, []⟩, ⟨"ai", response, now, none, []⟩]
    ⟨.ok response, newConv, 1, none⟩

/-- Modelled from the spec: `speech_to_text` is called by
`process_audio_message` (and by the `/api/speech/recognize` route) but is
not defined anywhere under the sources; §6 of the spec specifies the
collaborator as `transcribe(audioBytes) -> string (possibly empty)`. -/
abbrev SpeechToText := List ℕ → String

/-- Model of `MementoRAGSystem.process_audio_message`: transcribe, return
the `TranscriptionFailed` error dict on an empty transcript (before any
other work), otherwise delegate to `process_text_message` and attach the
transcript under the `"message"` key. -/
def process_audio_message (stt : SpeechToText) (p : TextPipeline) (now : ℤ)
    (conv : List ConvMessage) (audio : List ℕ) : ProcessOutcome :=
  let message := stt audio
  if message = "" then ⟨.error "Could not understand the audio message", conv, 0, none⟩
  else
    let r := process_text_message p now conv message
    { r with transcript := some message }

/-- Model of `MementoQuizSystem.retrieve_conversations`.  The date filter
computes `cutoff_date = datetime.now() - datetime.timedelta(days=days_limit)`,
but `datetime` names the class (`from datetime import datetime`), which has
no `timedelta` attribute: for `days_limit > 0` this raises AttributeError,
which the blanket `except Exception` converts into `[]`.  Only for
`days_limit <= 0` (never exercised by `generate_quiz`) does the function
sort the messages by timestamp, newest first, and truncate. -/
def retrieve_conversations (messages : Option (List ConvMessage))
    (daysLimit : ℤ) (countLimit : ℕ) : List ConvMessage :=
  match messages with
  | none => []
  | some allMessages =>
    if 0 < daysLimit then []
    else
      (List.insertionSort (fun a b => b.timestamp ≤ a.timestamp) allMessages).take countLimit

/-- The conversation-seeding step of `generate_quiz` for quiz types
`conversation` and `mixed`: `retrieve_conversations(patient_id,
days_limit=30, count_limit=50)`, filtered to `sender == "patient"`, first
20 kept.  (The seeds' projection to content/timestamp/topics dicts is
elided.) -/
def generate_quiz_conversation_seeds (messages : Option (List ConvMessage)) :
    List ConvMessage :=
  ((retrieve_conversations messages 30 50).filter (fun m => m.sender == "patient")).take 20

/-! ## Theorems -/

/-! ### The similarity comparison is the real cosine order. -/

theorem sq_compare_nonneg (a b : ℝ) (ha : 0 ≤ a) (hb : 0 ≤ b) : a ≤ b ↔ a ^ 2 ≤ b ^ 2 := by
  constructor
  · intro h; nlinarith
  · intro h; nlinarith

theorem sq_compare_nonpos (a b : ℝ) (ha : a ≤ 0) (hb : b ≤ 0) : a ≤ b ↔ b ^ 2 ≤ a ^ 2 := by
  constructor
  · intro h; nlinarith
  · intro h; nlinarith

/-- `simLe` decides exactly the comparison of the real cosine values
`d / √P` that numpy computes in floating point. -/
theorem simLe_eq_true_iff_real (d1 P1 d2 P2 : ℚ) (h1 : 0 < P1) (h2 : 0 < P2) :
    (simLe (.val d1 P1) (.val d2 P2) = true) ↔
      (d1 : ℝ) / Real.sqrt (P1 : ℝ) ≤ (d2 : ℝ) / Real.sqrt (P2 : ℝ) := by
  have h1R : (0:ℝ) < (P1 : ℝ) := by exact_mod_cast h1
  have h2R : (0:ℝ) < (P2 : ℝ) := by exact_mod_cast h2
  have s1 : (0:ℝ) < Real.sqrt (P1 : ℝ) := Real.sqrt_pos.2 h1R
  have s2 : (0:ℝ) < Real.sqrt (P2 : ℝ) := Real.sqrt_pos.2 h2R
  have e1 : Real.sqrt (P1 : ℝ) ^ 2 = (P1:ℝ) := Real.sq_sqrt h1R.le
  have e2 : Real.sqrt (P2 : ℝ) ^ 2 = (P2:ℝ) := Real.sq_sqrt h2R.le
  have hA2 : ((d1:ℝ) * Real.sqrt (P2:ℝ)) ^ 2 = (d1:ℝ) ^ 2 * (P2:ℝ) := by rw [mul_pow, e2]
  have hB2 : ((d2:ℝ) * Real.sqrt (P1:ℝ)) ^ 2 = (d2:ℝ) ^ 2 * (P1:ℝ) := by rw [mul_pow, e1]
  rw [div_le_div_iff₀ s1 s2]
  simp only [simLe]
  rw [if_neg (not_le.2 h1), if_neg (not_le.2 h2)]
  by_cases hd1 : d1 ≤ 0
  · rw [if_pos hd1]
    have hd1R : (d1:ℝ) ≤ 0 := by exact_mod_cast hd1
    by_cases hd2 : 0 ≤ d2
    · rw [if_pos hd2]
      have hd2R : (0:ℝ) ≤ (d2:ℝ) := by exact_mod_cast hd2
      refine iff_of_true rfl ?_
      have lhs0 : (d1:ℝ) * Real.sqrt (P2:ℝ) ≤ 0 := mul_nonpos_iff.2 (Or.inr ⟨hd1R, s2.le⟩)
      have rhs0 : 0 ≤ (d2:ℝ) * Real.sqrt (P1:ℝ) := mul_nonneg hd2R s1.le
      linarith
    · rw [if_neg hd2]
      push_neg at hd2
      have hd2R : (d2:ℝ) < 0 := by exact_mod_cast hd2
      have hA0 : (d1:ℝ) * Real.sqrt (P2:ℝ) ≤ 0 := mul_nonpos_iff.2 (Or.inr ⟨hd1R, s2.le⟩)
      have hB0 : (d2:ℝ) * Real.sqrt (P1:ℝ) ≤ 0 := mul_nonpos_iff.2 (Or.inr ⟨hd2R.le, s1.le⟩)
      rw [decide_eq_true_eq,
        sq_compare_nonpos ((d1:ℝ) * Real.sqrt (P2:ℝ)) ((d2:ℝ) * Real.sqrt (P1:ℝ)) hA0 hB0,
        hA2, hB2]
      exact_mod_cast Iff.rfl
  · rw [if_neg hd1]
    push_neg at hd1
    have hd1R : (0:ℝ) < (d1:ℝ) := by exact_mod_cast hd1
    by_cases hd2 : d2 ≤ 0
    · rw [if_pos hd2]
      have hd2R : (d2:ℝ) ≤ 0 := by exact_mod_cast hd2
      refine iff_of_false (by simp) ?_
      have lhs0 : 0 < (d1:ℝ) * Real.sqrt (P2:ℝ) := mul_pos hd1R s2
      have rhs0 : (d2:ℝ) * Real.sqrt (P1:ℝ) ≤ 0 := mul_nonpos_iff.2 (Or.inr ⟨hd2R, s1.le⟩)
      intro hcon
      linarith
    · rw [if_neg hd2]
      push_neg at hd2
      have hd2R : (0:ℝ) < (d2:ℝ) := by exact_mod_cast hd2
      have hA0 : (0:ℝ) ≤ (d1:ℝ) * Real.sqrt (P2:ℝ) := (mul_pos hd1R s2).le
      have hB0 : (0:ℝ) ≤ (d2:ℝ) * Real.sqrt (P1:ℝ) := (mul_pos hd2R s1).le
      rw [decide_eq_true_eq,
        sq_compare_nonneg ((d1:ℝ) * Real.sqrt (P2:ℝ)) ((d2:ℝ) * Real.sqrt (P1:ℝ)) hA0 hB0,
        hA2, hB2]
      exact_mod_cast Iff.rfl

/-- `simLt` decides exactly the strict comparison of the real cosine values
`d / √P` on proper similarity values. -/
theorem simLt_eq_true_iff_real (d1 P1 d2 P2 : ℚ) (h1 : 0 < P1) (h2 : 0 < P2) :
    (simLt (.val d1 P1) (.val d2 P2) = true) ↔
      (d1 : ℝ) / Real.sqrt (P1 : ℝ) < (d2 : ℝ) / Real.sqrt (P2 : ℝ) := by
  have hnot : ¬(P1 ≤ 0 ∨ P2 ≤ 0) := by push_neg; exact ⟨h1, h2⟩
  have hb := simLe_eq_true_iff_real d2 P2 d1 P1 h2 h1
  simp only [simLt]
  rw [if_neg hnot, lt_iff_not_le]
  constructor
  · intro h hle
    rw [← hb] at hle
    rw [hle] at h
    simp at h
  · intro h
    cases hcase : simLe (.val d2 P2) (.val d1 P1) with
    | false => rfl
    | true => exact absurd (hb.1 hcase) h

theorem dot_self_nonneg (v : Vec) : 0 ≤ dot v v := by
  induction v with
  | nil => simp [dot]
  | cons x v ih =>
    have h : dot (x :: v) (x :: v) = x * x + dot v v := by
      simp [dot]
    rw [h]
    nlinarith [mul_self_nonneg x]

theorem normSq_nonneg (v : Vec) : 0 ≤ normSq v :=
  dot_self_nonneg v

/-! #### The modeled sort permutes its input (unconditionally). -/

theorem countRunAsc_append (lt : α → α → Bool) (a : α) (l : List α) :
    (countRunAsc lt a l).1 ++ (countRunAsc lt a l).2 = a :: l := by
  induction l generalizing a with
  | nil => rfl
  | cons b rest ih =>
    simp only [countRunAsc]
    by_cases hc : lt b a
    · rw [if_pos hc]
      rfl
    · rw [if_neg hc]
      have hba := ih b
      cases hrr : countRunAsc lt b rest with
      | mk r rest2 =>
        rw [hrr] at hba
        have hba2 : r ++ rest2 = b :: rest := hba
        show (a :: r) ++ rest2 = a :: b :: rest
        rw [List.cons_append, hba2]

theorem countRunDesc_append (lt : α → α → Bool) (a : α) (l : List α) :
    (countRunDesc lt a l).1 ++ (countRunDesc lt a l).2 = a :: l := by
  induction l generalizing a with
  | nil => rfl
  | cons b rest ih =>
    simp only [countRunDesc]
    by_cases hc : lt b a
    · rw [if_pos hc]
      have hba := ih b
      cases hrr : countRunDesc lt b rest with
      | mk r rest2 =>
        rw [hrr] at hba
        have hba2 : r ++ rest2 = b :: rest := hba
        show (a :: r) ++ rest2 = a :: b :: rest
        rw [List.cons_append, hba2]
    · rw [if_neg hc]
      rfl

theorem initialRun_perm (lt : α → α → Bool) (l : List α) :
    ((initialRun lt l).1 ++ (initialRun lt l).2).Perm l := by
  match l with
  | [] => simp [initialRun]
  | [a] => simp [initialRun]
  | a :: b :: rest =>
    simp only [initialRun]
    by_cases hc : lt b a
    · rw [if_pos hc]
      have hba := countRunDesc_append lt b rest
      cases hrr : countRunDesc lt b rest with
      | mk r rest2 =>
        rw [hrr] at hba
        have hba2 : r ++ rest2 = b :: rest := hba
        show ((a :: r).reverse ++ rest2).Perm (a :: b :: rest)
        refine ((List.reverse_perm (a :: r)).append_right rest2).trans ?_
        rw [List.cons_append, hba2]
    · rw [if_neg hc]
      have hba := countRunAsc_append lt b rest
      cases hrr : countRunAsc lt b rest with
      | mk r rest2 =>
        rw [hrr] at hba
        have hba2 : r ++ rest2 = b :: rest := hba
        show ((a :: r) ++ rest2).Perm (a :: b :: rest)
        rw [List.cons_append, hba2]

theorem binarysortLoop_perm (lt : α → α → Bool) (rest : List α) :
    ∀ sorted : List α, (binarysortLoop lt sorted rest).Perm (sorted ++ rest) := by
  induction rest with
  | nil => intro sorted; simp [binarysortLoop]
  | cons x rest ih =>
    intro sorted
    simp only [binarysortLoop]
    refine (ih _).trans ?_
    refine (List.perm_middle.append_right rest).trans ?_
    rw [List.take_append_drop]
    exact List.perm_middle.symm

theorem pyListSortAsc_perm (lt : α → α → Bool) (l : List α) :
    (pyListSortAsc lt l).Perm l := by
  have hperm := initialRun_perm lt l
  cases hrr : initialRun lt l with
  | mk run rest =>
    rw [hrr] at hperm
    have hperm2 : (run ++ rest).Perm l := hperm
    have hgoal : pyListSortAsc lt l = binarysortLoop lt run rest := by
      unfold pyListSortAsc
      rw [hrr]
    rw [hgoal]
    exact (binarysortLoop_perm lt rest run).trans hperm2

theorem pyListSortDesc_perm (lt : α → α → Bool) (l : List α) :
    (pyListSortDesc lt l).Perm l := by
  unfold pyListSortDesc
  exact (List.reverse_perm _).trans
    ((pyListSortAsc_perm lt l.reverse).trans (List.reverse_perm l))

theorem sortBySim_perm (l : List Scored) : (sortBySim l).Perm l :=
  pyListSortDesc_perm scoredLt l

/-! #### The modeled sort orders consistently-compared elements.

`G` carves out elements whose pairwise comparisons agree with a real key
(NaN-free, in the similarity instance); on a list of such elements the
modeled CPython sort is order-correct.  The development follows the
algorithm: the binary search meets its splitting contract, insertion keeps
the prefix sorted, `count_run` emits a sorted run. -/

theorem binsearchGo_spec (lt : α → α → Bool) (key : α → ℝ) (arr : List α) (pivot : α)
    (hcmp : ∀ a ∈ arr, lt pivot a = true ↔ key pivot < key a)
    (hsorted : List.Pairwise (fun a b => key a ≤ key b) arr) :
    ∀ (fuel l r : ℕ), l ≤ r → r ≤ arr.length → r - l ≤ fuel →
      (∀ a ∈ arr.take l, key a ≤ key pivot) →
      (∀ a ∈ arr.drop r, key pivot < key a) →
      binsearchGo lt arr pivot fuel l r ≤ arr.length
        ∧ (∀ a ∈ arr.take (binsearchGo lt arr pivot fuel l r), key a ≤ key pivot)
        ∧ (∀ a ∈ arr.drop (binsearchGo lt arr pivot fuel l r), key pivot < key a) := by
  intro fuel
  induction fuel with
  | zero =>
    intro l r hlr hrlen hfuel hleft hright
    have hlr2 : l = r := by omega
    subst hlr2
    simp only [binsearchGo]
    exact ⟨by omega, hleft, hright⟩
  | succ fuel ih =>
    intro l r hlr hrlen hfuel hleft hright
    by_cases hlt2 : l < r
    · set p := l + (r - l) / 2 with hp
      have hplen : p < arr.length := by omega
      have hgetd : arr.getD p pivot = arr[p] := by
        rw [List.getD_eq_getElem?_getD, List.getElem?_eq_getElem hplen, Option.getD_some]
      have hmem : arr.getD p pivot ∈ arr := by
        rw [hgetd]
        exact List.mem_iff_getElem.2 ⟨p, hplen, rfl⟩
      have hdropp : arr.drop p = arr.getD p pivot :: arr.drop (p + 1) := by
        rw [hgetd]
        exact List.drop_eq_getElem_cons hplen
      have htakep : arr.take (p + 1) = arr.take p ++ [arr.getD p pivot] := by
        rw [hgetd, List.take_succ, List.getElem?_eq_getElem hplen]
        rfl
      have hstep : binsearchGo lt arr pivot (fuel + 1) l r =
          if lt pivot (arr.getD p pivot) = true then binsearchGo lt arr pivot fuel l p
          else binsearchGo lt arr pivot fuel (p + 1) r := by
        simp only [binsearchGo]
        rw [if_pos hlt2, ← hp]
      rw [hstep]
      by_cases hc : lt pivot (arr.getD p pivot) = true
      · rw [if_pos hc]
        have hkey : key pivot < key (arr.getD p pivot) := (hcmp _ hmem).1 hc
        refine ih l p (by omega) (by omega) (by omega) hleft ?_
        intro a ha
        rw [hdropp] at ha
        rcases List.mem_cons.1 ha with rfl | ha2
        · exact hkey
        · have hs2 : List.Pairwise (fun a b => key a ≤ key b) (arr.drop p) :=
            hsorted.sublist (List.drop_sublist _ _)
          rw [hdropp] at hs2
          exact lt_of_lt_of_le hkey ((List.pairwise_cons.1 hs2).1 a ha2)
      · rw [if_neg hc]
        have hkey : key (arr.getD p pivot) ≤ key pivot :=
          le_of_not_lt (fun hcon => hc ((hcmp _ hmem).2 hcon))
        refine ih (p + 1) r (by omega) hrlen (by omega) ?_ hright
        intro a ha
        rw [htakep] at ha
        rcases List.mem_append.1 ha with ha2 | ha2
        · have hsorted2 : List.Pairwise (fun a b => key a ≤ key b)
              (arr.take p ++ arr.drop p) := by
            rw [List.take_append_drop]
            exact hsorted
          have hmem2 : arr.getD p pivot ∈ arr.drop p := by
            rw [hdropp]
            exact List.mem_cons_self _ _
          exact le_trans ((List.pairwise_append.1 hsorted2).2.2 a ha2 _ hmem2) hkey
        · have ha3 : a = arr.getD p pivot := by simpa using ha2
          rw [ha3]
          exact hkey
    · have hlr2 : l = r := by omega
      subst hlr2
      have hred : binsearchGo lt arr pivot (fuel + 1) l l = l := by
        simp only [binsearchGo]
        rw [if_neg hlt2]
      rw [hred]
      exact ⟨by omega, hleft, hright⟩

/-- Inserting at an index that splits a sorted list into a
≤-pivot prefix and a >-pivot suffix keeps it sorted. -/
theorem insert_pos_sorted (key : α → ℝ) (arr : List α) (pivot : α) (i : ℕ)
    (hsorted : List.Pairwise (fun a b => key a ≤ key b) arr)
    (hle : ∀ a ∈ arr.take i, key a ≤ key pivot)
    (hgt : ∀ a ∈ arr.drop i, key pivot < key a) :
    List.Pairwise (fun a b => key a ≤ key b) (arr.take i ++ pivot :: arr.drop i) := by
  rw [List.pairwise_append]
  refine ⟨hsorted.sublist (List.take_sublist _ _), ?_, ?_⟩
  · rw [List.pairwise_cons]
    exact ⟨fun a ha => (hgt a ha).le, hsorted.sublist (List.drop_sublist _ _)⟩
  · intro a ha b hb
    rcases List.mem_cons.1 hb with rfl | hb2
    · exact hle a ha
    · have hsorted2 : List.Pairwise (fun a b => key a ≤ key b)
          (arr.take i ++ arr.drop i) := by
        rw [List.take_append_drop]
        exact hsorted
      exact (List.pairwise_append.1 hsorted2).2.2 a ha b hb2

theorem binarysortLoop_sorted (lt : α → α → Bool) (key : α → ℝ) (G : α → Prop)
    (hlt : ∀ a b, G a → G b → (lt a b = true ↔ key a < key b)) (rest : List α) :
    ∀ sorted : List α, (∀ a ∈ sorted, G a) → (∀ a ∈ rest, G a) →
      List.Pairwise (fun a b => key a ≤ key b) sorted →
      List.Pairwise (fun a b => key a ≤ key b) (binarysortLoop lt sorted rest) := by
  induction rest with
  | nil =>
    intro sorted _ _ hs
    simpa [binarysortLoop] using hs
  | cons x rest ih =>
    intro sorted hGs hGr hs
    have hGx : G x := hGr x (List.mem_cons_self _ _)
    simp only [binarysortLoop]
    obtain ⟨hi, hle2, hgt2⟩ := binsearchGo_spec lt key sorted x
      (fun a ha => hlt x a hGx (hGs a ha)) hs sorted.length 0 sorted.length
      (Nat.zero_le _) (le_refl _) (by omega) (by simp) (by simp)
    refine ih _ ?_ (fun a ha => hGr a (List.mem_cons_of_mem _ ha)) ?_
    · intro a ha
      rcases List.mem_append.1 ha with h1 | h1
      · exact hGs a (List.mem_of_mem_take h1)
      · rcases List.mem_cons.1 h1 with rfl | h2
        · exact hGx
        · exact hGs a (List.mem_of_mem_drop h2)
    · exact insert_pos_sorted key sorted x _ hs hle2 hgt2

theorem countRunAsc_head (lt : α → α → Bool) (a : α) (l : List α) :
    ∃ r2, (countRunAsc lt a l).1 = a :: r2 := by
  cases l with
  | nil => exact ⟨[], rfl⟩
  | cons b rest =>
    simp only [countRunAsc]
    by_cases hc : lt b a
    · rw [if_pos hc]
      exact ⟨[], rfl⟩
    · rw [if_neg hc]
      cases hrr : countRunAsc lt b rest with
      | mk r rest2 => exact ⟨r, rfl⟩

theorem countRunDesc_head (lt : α → α → Bool) (a : α) (l : List α) :
    ∃ r2, (countRunDesc lt a l).1 = a :: r2 := by
  cases l with
  | nil => exact ⟨[], rfl⟩
  | cons b rest =>
    simp only [countRunDesc]
    by_cases hc : lt b a
    · rw [if_pos hc]
      cases hrr : countRunDesc lt b rest with
      | mk r rest2 => exact ⟨r, rfl⟩
    · rw [if_neg hc]
      exact ⟨[], rfl⟩

theorem countRunAsc_sorted (lt : α → α → Bool) (key : α → ℝ) (G : α → Prop)
    (hlt : ∀ a b, G a → G b → (lt a b = true ↔ key a < key b)) :
    ∀ (l : List α) (a : α), G a → (∀ x ∈ l, G x) →
      List.Pairwise (fun x y => key x ≤ key y) (countRunAsc lt a l).1 := by
  intro l
  induction l with
  | nil =>
    intro a _ _
    simp [countRunAsc]
  | cons b rest ih =>
    intro a hGa hGl
    have hGb : G b := hGl b (List.mem_cons_self _ _)
    simp only [countRunAsc]
    by_cases hc : lt b a
    · rw [if_pos hc]
      simp
    · rw [if_neg hc]
      have hab : key a ≤ key b := le_of_not_lt (fun hcon => hc ((hlt b a hGb hGa).2 hcon))
      have hrec := ih b hGb (fun x hx => hGl x (List.mem_cons_of_mem _ hx))
      obtain ⟨r2, hr2⟩ := countRunAsc_head lt b rest
      cases hrr : countRunAsc lt b rest with
      | mk r rest2 =>
        rw [hrr] at hrec hr2
        have hr3 : r = b :: r2 := hr2
        subst hr3
        have hrec2 : List.Pairwise (fun x y => key x ≤ key y) (b :: r2) := hrec
        show List.Pairwise (fun x y => key x ≤ key y) (a :: b :: r2)
        refine List.pairwise_cons.2 ⟨?_, hrec2⟩
        intro y hy
        rcases List.mem_cons.1 hy with rfl | hy2
        · exact hab
        · exact le_trans hab ((List.pairwise_cons.1 hrec2).1 y hy2)

theorem countRunDesc_sorted (lt : α → α → Bool) (key : α → ℝ) (G : α → Prop)
    (hlt : ∀ a b, G a → G b → (lt a b = true ↔ key a < key b)) :
    ∀ (l : List α) (a : α), G a → (∀ x ∈ l, G x) →
      List.Pairwise (fun x y => key y ≤ key x) (countRunDesc lt a l).1 := by
  intro l
  induction l with
  | nil =>
    intro a _ _
    simp [countRunDesc]
  | cons b rest ih =>
    intro a hGa hGl
    have hGb : G b := hGl b (List.mem_cons_self _ _)
    simp only [countRunDesc]
    by_cases hc : lt b a
    · rw [if_pos hc]
      have hba : key b < key a := (hlt b a hGb hGa).1 hc
      have hrec := ih b hGb (fun x hx => hGl x (List.mem_cons_of_mem _ hx))
      obtain ⟨r2, hr2⟩ := countRunDesc_head lt b rest
      cases hrr : countRunDesc lt b rest with
      | mk r rest2 =>
        rw [hrr] at hrec hr2
        have hr3 : r = b :: r2 := hr2
        subst hr3
        have hrec2 : List.Pairwise (fun x y => key y ≤ key x) (b :: r2) := hrec
        show List.Pairwise (fun x y => key y ≤ key x) (a :: b :: r2)
        refine List.pairwise_cons.2 ⟨?_, hrec2⟩
        intro y hy
        rcases List.mem_cons.1 hy with rfl | hy2
        · exact hba.le
        · exact le_trans ((List.pairwise_cons.1 hrec2).1 y hy2) hba.le
    · rw [if_neg hc]
      simp

theorem initialRun_sorted (lt : α → α → Bool) (key : α → ℝ) (G : α → Prop)
    (hlt : ∀ a b, G a → G b → (lt a b = true ↔ key a < key b))
    (l : List α) (hG : ∀ x ∈ l, G x) :
    List.Pairwise (fun x y => key x ≤ key y) (initialRun lt l).1 := by
  match l with
  | [] => simp [initialRun]
  | [a] => simp [initialRun]
  | a :: b :: rest =>
    have hGa : G a := hG a (List.mem_cons_self _ _)
    have hGtail : ∀ x ∈ b :: rest, G x := fun x hx => hG x (List.mem_cons_of_mem _ hx)
    simp only [initialRun]
    by_cases hc : lt b a
    · rw [if_pos hc]
      have hdesc := countRunDesc_sorted lt key G hlt (b :: rest) a hGa hGtail
      simp only [countRunDesc, if_pos hc] at hdesc
      cases hrr : countRunDesc lt b rest with
      | mk r rest2 =>
        rw [hrr] at hdesc
        have hdesc2 : List.Pairwise (fun x y => key y ≤ key x) (a :: r) := hdesc
        show List.Pairwise (fun x y => key x ≤ key y) ((a :: r).reverse)
        rw [List.pairwise_reverse]
        exact hdesc2
    · rw [if_neg hc]
      have hasc := countRunAsc_sorted lt key G hlt (b :: rest) a hGa hGtail
      simp only [countRunAsc, if_neg hc] at hasc
      cases hrr : countRunAsc lt b rest with
      | mk r rest2 =>
        rw [hrr] at hasc
        have hasc2 : List.Pairwise (fun x y => key x ≤ key y) (a :: r) := hasc
        exact hasc2

theorem pyListSortAsc_sorted (lt : α → α → Bool) (key : α → ℝ) (G : α → Prop)
    (hlt : ∀ a b, G a → G b → (lt a b = true ↔ key a < key b))
    (l : List α) (hG : ∀ x ∈ l, G x) :
    List.Pairwise (fun a b => key a ≤ key b) (pyListSortAsc lt l) := by
  have hperm := initialRun_perm lt l
  have hsor := initialRun_sorted lt key G hlt l hG
  cases hrr : initialRun lt l with
  | mk run rest =>
    rw [hrr] at hperm hsor
    have hperm2 : (run ++ rest).Perm l := hperm
    have hsor2 : List.Pairwise (fun a b => key a ≤ key b) run := hsor
    have hGrun : ∀ x ∈ run, G x :=
      fun x hx => hG x (hperm2.subset (List.mem_append_left _ hx))
    have hGrest : ∀ x ∈ rest, G x :=
      fun x hx => hG x (hperm2.subset (List.mem_append_right _ hx))
    have hgoal : pyListSortAsc lt l = binarysortLoop lt run rest := by
      unfold pyListSortAsc
      rw [hrr]
    rw [hgoal]
    exact binarysortLoop_sorted lt key G hlt rest run hGrun hGrest hsor2

theorem pyListSortDesc_sorted (lt : α → α → Bool) (key : α → ℝ) (G : α → Prop)
    (hlt : ∀ a b, G a → G b → (lt a b = true ↔ key a < key b))
    (l : List α) (hG : ∀ x ∈ l, G x) :
    List.Pairwise (fun a b => key b ≤ key a) (pyListSortDesc lt l) := by
  unfold pyListSortDesc
  rw [List.pairwise_reverse]
  exact pyListSortAsc_sorted lt key G hlt l.reverse
    (fun x hx => hG x (List.mem_reverse.1 hx))

/-- Anatomy of a record the RAG fallback loop keeps: its chunk was a
candidate, its vector was present and non-empty, and the attached score
came either from the original vector (matching dimension) or from a
successful re-embedding of the summary. -/
theorem rag_fallback_scores_mem (embed : Embed) (q : Vec) (chunks : List Chunk) (sc : Scored)
    (h : sc ∈ rag_fallback_scores embed q chunks) :
    sc.chunk ∈ chunks ∧ ∃ v, sc.chunk.vector = some v ∧ v ≠ [] ∧
      ((v.length = q.length ∧ sc.sim = mkSim v q) ∨
        (v.length ≠ q.length ∧ ∃ s v2, sc.chunk.summary = some s ∧ embed s = some v2 ∧
          v2.length = q.length ∧ sc.sim = mkSim v2 q)) := by
  rcases List.mem_filterMap.1 h with ⟨m, hm, hf⟩
  cases hv : m.vector with
  | none => simp [ragScoreChunk, hv] at hf
  | some v =>
    simp only [ragScoreChunk, hv] at hf
    by_cases hne : v = []
    · simp [hne] at hf
    · rw [if_neg hne] at hf
      cases heff : effectiveVector embed q m v with
      | none => rw [heff] at hf; simp at hf
      | some v2 =>
        simp only [heff] at hf
        by_cases hlen2 : v2.length = q.length
        · rw [if_pos hlen2, Option.some.injEq] at hf
          subst hf
          by_cases hlen : v.length = q.length
          · have hv2 : v2 = v := by
              have h2 := heff
              rw [effectiveVector, if_pos hlen, Option.some.injEq] at h2
              exact h2.symm
            exact ⟨hm, v, hv, hne, Or.inl ⟨hlen, by rw [hv2]⟩⟩
          · rw [effectiveVector, if_neg hlen] at heff
            cases hs : m.summary with
            | none => rw [hs] at heff; cases heff
            | some s =>
              rw [hs] at heff
              exact ⟨hm, v, hv, hne, Or.inr ⟨hlen, s, v2, rfl, heff, hlen2, rfl⟩⟩
        · rw [if_neg hlen2] at hf; simp at hf

/-- C1, counterexample to the unconditional descending order: with the
query `[1, 0]` and candidate vectors `[0, 1]`, `[0, 0]`, `[1, 0]`, the
float similarity keys are `[0.0, NaN, 1.0]`.  Every CPython comparison
against the NaN key is false, so after the `reverse=True` reversal
`count_run` swallows the whole list as one ascending run, `binarysort`
inserts nothing, and the records come back *unpermuted*: the first
returned record has cosine 0 while the last has cosine 1, violating the
claimed pairwise descending order. -/
theorem rag_retrieve_memories_nan_unsorted_counterexample :
    rag_retrieve_memories (fun _ => none) [(1:ℚ), 0]
        [⟨some [(0:ℚ), 1], none, 0⟩, ⟨some [(0:ℚ), 0], none, 1⟩,
         ⟨some [(1:ℚ), 0], none, 2⟩] 5 =
      [⟨⟨some [(0:ℚ), 1], none, 0⟩, SimVal.val 0 1⟩,
       ⟨⟨some [(0:ℚ), 0], none, 1⟩, SimVal.nan⟩,
       ⟨⟨some [(1:ℚ), 0], none, 2⟩, SimVal.val 1 1⟩]
    ∧ ¬ List.Pairwise (fun a b => simRealGe a.sim b.sim)
        (rag_retrieve_memories (fun _ => none) [(1:ℚ), 0]
          [⟨some [(0:ℚ), 1], none, 0⟩, ⟨some [(0:ℚ), 0], none, 1⟩,
           ⟨some [(1:ℚ), 0], none, 2⟩] 5) := by
  have hs : rag_fallback_scores (fun _ => none) [(1:ℚ), 0]
      [⟨some [(0:ℚ), 1], none, 0⟩, ⟨some [(0:ℚ), 0], none, 1⟩,
       ⟨some [(1:ℚ), 0], none, 2⟩] =
      [⟨⟨some [(0:ℚ), 1], none, 0⟩, SimVal.val 0 1⟩,
       ⟨⟨some [(0:ℚ), 0], none, 1⟩, SimVal.nan⟩,
       ⟨⟨some [(1:ℚ), 0], none, 2⟩, SimVal.val 1 1⟩] := by
    norm_num [rag_fallback_scores, List.filterMap_cons, ragScoreChunk, effectiveVector,
      mkSim, normSq, dot]
    rfl
  have heval : rag_retrieve_memories (fun _ => none) [(1:ℚ), 0]
      [⟨some [(0:ℚ), 1], none, 0⟩, ⟨some [(0:ℚ), 0], none, 1⟩,
       ⟨some [(1:ℚ), 0], none, 2⟩] 5 =
      [⟨⟨some [(0:ℚ), 1], none, 0⟩, SimVal.val 0 1⟩,
       ⟨⟨some [(0:ℚ), 0], none, 1⟩, SimVal.nan⟩,
       ⟨⟨some [(1:ℚ), 0], none, 2⟩, SimVal.val 1 1⟩] := by
    unfold rag_retrieve_memories
    rw [hs]
    rfl
  refine ⟨heval, ?_⟩
  intro hpw
  rw [heval] at hpw
  have h1 := (List.pairwise_cons.1 hpw).1
    ⟨⟨some [(1:ℚ), 0], none, 2⟩, SimVal.val 1 1⟩
    (List.mem_cons_of_mem _ (List.mem_cons_self _ _))
  have h2 := h1 0 1 1 1 rfl rfl one_pos one_pos
  rw [Rat.cast_one, Real.sqrt_one] at h2
  norm_num at h2

/-- C1 (amended): the manual fallback of `MementoRAGSystem.retrieve_memories`
returns at most `min(k, |C|)` records, maps an empty candidate set to the
empty sequence, excludes every dimension-mismatched candidate whose summary
is absent or whose re-embedding raises, and — whenever no retained
candidate carries a NaN similarity, i.e. no zero-norm vector took part —
returns the records pairwise sorted by descending cosine similarity (read
on the real values).  The NaN-freedom proviso on the order is forced by
the counterexample above. -/
theorem rag_retrieve_memories_spec (embed : Embed) (q : Vec) (chunks : List Chunk) (k : ℕ) :
    (rag_retrieve_memories embed q chunks k).length ≤ min k chunks.length
    ∧ rag_retrieve_memories embed q [] k = []
    ∧ (∀ m ∈ chunks, ∀ v, m.vector = some v → v ≠ [] → v.length ≠ q.length →
        (m.summary = none ∨ ∀ s, m.summary = some s → embed s = none) →
        m ∉ (rag_retrieve_memories embed q chunks k).map Scored.chunk)
    ∧ (SimVal.nan ∉ (rag_fallback_scores embed q chunks).map Scored.sim →
        List.Pairwise (fun a b => simRealGe a.sim b.sim)
          (rag_retrieve_memories embed q chunks k)) := by
  refine ⟨?_, ?_, ?_, ?_⟩
  case refine_2 =>
    show List.take k ([] : List Scored) = []
    exact List.take_nil
  · have h1 : (rag_retrieve_memories embed q chunks k).length =
        min k (sortBySim (rag_fallback_scores embed q chunks)).length := by
      simp [rag_retrieve_memories]
    rw [h1, (sortBySim_perm _).length_eq]
    exact min_le_min (le_refl k) (List.length_filterMap_le _ _)
  · intro m hm v hv hne hlen hfail hmem
    rcases List.mem_map.1 hmem with ⟨sc, hsc, hchunk⟩
    have hsc2 : sc ∈ rag_fallback_scores embed q chunks :=
      (sortBySim_perm _).mem_iff.1 (List.mem_of_mem_take hsc)
    rcases rag_fallback_scores_mem embed q chunks sc hsc2 with ⟨_, v1, hv1, _, hcases⟩
    rw [hchunk] at hv1
    rw [hv] at hv1
    cases hv1
    rcases hcases with ⟨heq, _⟩ | ⟨_, s, v2, hs, he, _, _⟩
    · exact hlen heq
    · rw [hchunk] at hs
      rcases hfail with hnone | hraise
      · rw [hnone] at hs; cases hs
      · rw [hraise s hs] at he; cases he
  · intro hnn
    have hG : ∀ sc ∈ rag_fallback_scores embed q chunks,
        ∃ d P, sc.sim = SimVal.val d P ∧ (0:ℚ) < P := by
      intro sc hsc
      have hne : sc.sim ≠ SimVal.nan := fun h => hnn (List.mem_map.2 ⟨sc, hsc, h⟩)
      obtain ⟨-, v, -, -, hcases⟩ := rag_fallback_scores_mem embed q chunks sc hsc
      obtain ⟨w, hw⟩ : ∃ w, sc.sim = mkSim w q := by
        rcases hcases with ⟨-, h⟩ | ⟨-, s, v2, -, -, -, h⟩
        · exact ⟨v, h⟩
        · exact ⟨v2, h⟩
      rw [hw] at hne ⊢
      simp only [mkSim] at hne ⊢
      by_cases hP : normSq w * normSq q = 0
      · rw [if_pos hP] at hne
        exact absurd rfl hne
      · rw [if_neg hP]
        exact ⟨_, _, rfl,
          lt_of_le_of_ne (mul_nonneg (normSq_nonneg w) (normSq_nonneg q)) (Ne.symm hP)⟩
    have hlt2 : ∀ a b : Scored,
        (∃ d P, a.sim = SimVal.val d P ∧ (0:ℚ) < P) →
        (∃ d P, b.sim = SimVal.val d P ∧ (0:ℚ) < P) →
        (scoredLt a b = true ↔
          (simD a.sim : ℝ) / Real.sqrt (simP a.sim : ℝ) <
            (simD b.sim : ℝ) / Real.sqrt (simP b.sim : ℝ)) := by
      rintro a b ⟨d1, P1, ha, hP1⟩ ⟨d2, P2, hb, hP2⟩
      simp only [scoredLt, ha, hb, simD, simP]
      exact simLt_eq_true_iff_real d1 P1 d2 P2 hP1 hP2
    have hmain := pyListSortDesc_sorted scoredLt
      (fun sc => (simD sc.sim : ℝ) / Real.sqrt (simP sc.sim : ℝ))
      (fun sc => ∃ d P, sc.sim = SimVal.val d P ∧ (0:ℚ) < P)
      hlt2 (rag_fallback_scores embed q chunks) hG
    have htake : List.Pairwise
        (fun a b : Scored => (simD b.sim : ℝ) / Real.sqrt (simP b.sim : ℝ) ≤
          (simD a.sim : ℝ) / Real.sqrt (simP a.sim : ℝ))
        (rag_retrieve_memories embed q chunks k) := by
      have h2 : rag_retrieve_memories embed q chunks k =
          (pyListSortDesc scoredLt (rag_fallback_scores embed q chunks)).take k := rfl
      rw [h2]
      exact hmain.sublist (List.take_sublist _ _)
    refine htake.imp ?_
    intro a b h
    intro d1 P1 d2 P2 ha hb hP1 hP2
    rw [ha, hb] at h
    simp only [simD, simP] at h
    exact h

theorem rag_retrieve_memories_spec_witness :
    ((⟨some [(1:ℚ), 2], none, 1⟩ : Chunk) ∉
      (rag_retrieve_memories (fun _ => none) [(1:ℚ)]
        [⟨some [(1:ℚ)], none, 0⟩, ⟨some [(1:ℚ), 2], none, 1⟩] 5).map Scored.chunk)
    ∧ List.Pairwise (fun a b => simRealGe a.sim b.sim)
        (rag_retrieve_memories (fun _ => none) [(1:ℚ)]
          [⟨some [(1:ℚ)], none, 0⟩, ⟨some [(1:ℚ), 2], none, 1⟩] 5) :=
  ⟨(rag_retrieve_memories_spec (fun _ => none) [(1:ℚ)]
      [⟨some [(1:ℚ)], none, 0⟩, ⟨some [(1:ℚ), 2], none, 1⟩] 5).2.2.1
    _ (by simp) [(1:ℚ), 2] rfl (by simp) (by simp) (Or.inl rfl),
   (rag_retrieve_memories_spec (fun _ => none) [(1:ℚ)]
      [⟨some [(1:ℚ)], none, 0⟩, ⟨some [(1:ℚ), 2], none, 1⟩] 5).2.2.2
    (by
      have hs : rag_fallback_scores (fun _ => none) [(1:ℚ)]
          [⟨some [(1:ℚ)], none, 0⟩, ⟨some [(1:ℚ), 2], none, 1⟩] =
          [⟨⟨some [(1:ℚ)], none, 0⟩, SimVal.val 1 1⟩] := by
        norm_num [rag_fallback_scores, List.filterMap_cons, ragScoreChunk,
          effectiveVector, mkSim, normSq, dot]
      rw [hs]
      simp)⟩

/-- C9, counterexample to "zero-norm is treated as similarity 0": a
candidate with the zero vector is kept with similarity `NaN` (numpy's
`0.0/0.0`), which is not a zero similarity value. -/
theorem zero_norm_gets_nan_counterexample :
    rag_retrieve_memories (fun _ => none) [(1:ℚ)] [⟨some [(0:ℚ)], none, 0⟩] 5 =
      [⟨⟨some [(0:ℚ)], none, 0⟩, SimVal.nan⟩]
    ∧ SimVal.nan ≠ SimVal.val 0 1 := by
  constructor
  · have hs : rag_fallback_scores (fun _ => none) [(1:ℚ)] [⟨some [(0:ℚ)], none, 0⟩] =
        [⟨⟨some [(0:ℚ)], none, 0⟩, SimVal.nan⟩] := by
      norm_num [rag_fallback_scores, List.filterMap_cons, ragScoreChunk, effectiveVector,
        mkSim, normSq, dot]
    unfold rag_retrieve_memories
    rw [hs]
    rfl
  · simp

/-- C9 (amended): an empty candidate set yields the empty sequence in both
subsystems, and a zero-norm candidate (or query) does not raise: the
division `0.0/0.0` yields NaN and the record is *retained* in the scored
list with similarity NaN — not similarity 0. -/
theorem zero_norm_nan_no_error (embed : Embed) (q : Vec) (chunks : List Chunk) (k : ℕ) :
    rag_retrieve_memories embed q [] k = []
    ∧ quiz_retrieve_memories q [] k = []
    ∧ (∀ m ∈ chunks, ∀ v, m.vector = some v → v ≠ [] → v.length = q.length →
        normSq v * normSq q = 0 →
        (⟨m, SimVal.nan⟩ : Scored) ∈ rag_fallback_scores embed q chunks) := by
  refine ⟨?_, ?_, ?_⟩
  · show List.take k ([] : List Scored) = []
    exact List.take_nil
  · show List.take k ([] : List Scored) = []
    exact List.take_nil
  intro m hm v hv hne hlen hP
  refine List.mem_filterMap.2 ⟨m, hm, ?_⟩
  simp [ragScoreChunk, hv, hne, effectiveVector, hlen, mkSim, hP]

theorem zero_norm_nan_no_error_witness :
    (⟨⟨some [(0:ℚ)], none, 7⟩, SimVal.nan⟩ : Scored) ∈
      rag_fallback_scores (fun _ => none) [(1:ℚ)] [⟨some [(0:ℚ)], none, 7⟩] :=
  (zero_norm_nan_no_error (fun _ => none) [(1:ℚ)] [⟨some [(0:ℚ)], none, 7⟩] 5).2.2
    _ (by simp) [(0:ℚ)] rfl (by simp) (by simp) (by norm_num [normSq, dot])

/-- C10, counterexample to "identical result semantics including mismatched
dimensions": on a dimension-mismatched candidate whose summary re-embeds
successfully, the RAG fallback keeps the record while the quiz fallback
drops it. -/
theorem retrieval_pipelines_differ_counterexample :
    quiz_retrieve_memories [(1:ℚ), 0] [⟨some [(1:ℚ)], some "s", 0⟩] 5 = []
    ∧ rag_retrieve_memories (fun _ => some [(1:ℚ), 0]) [(1:ℚ), 0]
        [⟨some [(1:ℚ)], some "s", 0⟩] 5 =
      [⟨⟨some [(1:ℚ)], some "s", 0⟩, SimVal.val 1 1⟩] := by
  constructor
  · have hs : quiz_fallback_scores [(1:ℚ), 0] [⟨some [(1:ℚ)], some "s", 0⟩] = [] := by
      norm_num [quiz_fallback_scores, List.filterMap_cons, quizScoreChunk]
    unfold quiz_retrieve_memories
    rw [hs]
    rfl
  · have hs : rag_fallback_scores (fun _ => some [(1:ℚ), 0]) [(1:ℚ), 0]
        [⟨some [(1:ℚ)], some "s", 0⟩] =
        [⟨⟨some [(1:ℚ)], some "s", 0⟩, SimVal.val 1 1⟩] := by
      norm_num [rag_fallback_scores, List.filterMap_cons, ragScoreChunk, effectiveVector,
        mkSim, normSq, dot]
    unfold rag_retrieve_memories
    rw [hs]
    rfl

/-- C10 (amended): the two subsystems' manual fallbacks have identical
result semantics whenever every present, non-empty candidate vector
matches the query dimension; they differ only on dimension-mismatched
candidates (the RAG side re-embeds, the quiz side always skips). -/
theorem retrieval_pipelines_agree_on_matching_dims (embed : Embed) (q : Vec)
    (chunks : List Chunk) (k : ℕ)
    (h : ∀ m ∈ chunks, ∀ v, m.vector = some v → v ≠ [] → v.length = q.length) :
    quiz_retrieve_memories q chunks k = rag_retrieve_memories embed q chunks k := by
  unfold quiz_retrieve_memories rag_retrieve_memories
  have hsc : quiz_fallback_scores q chunks = rag_fallback_scores embed q chunks := by
    unfold quiz_fallback_scores rag_fallback_scores
    induction chunks with
    | nil => rfl
    | cons m rest ih =>
      rw [List.filterMap_cons, List.filterMap_cons]
      have hstep : quizScoreChunk q m = ragScoreChunk embed q m := by
        cases hv : m.vector with
        | none => simp [quizScoreChunk, ragScoreChunk, hv]
        | some v =>
          by_cases hne : v = []
          · simp [quizScoreChunk, ragScoreChunk, hv, hne]
          · have hlen := h m (List.mem_cons_self m rest) v hv hne
            simp [quizScoreChunk, ragScoreChunk, hv, hne, effectiveVector, hlen]
      rw [hstep, ih (fun m2 hm2 v hv hne => h m2 (List.mem_cons_of_mem m hm2) v hv hne)]
  rw [hsc]

theorem retrieval_pipelines_agree_on_matching_dims_witness :
    quiz_retrieve_memories [(1:ℚ)] [⟨some [(2:ℚ)], none, 0⟩] 3 =
      rag_retrieve_memories (fun _ => none) [(1:ℚ)] [⟨some [(2:ℚ)], none, 0⟩] 3 :=
  retrieval_pipelines_agree_on_matching_dims (fun _ => none) [(1:ℚ)]
    [⟨some [(2:ℚ)], none, 0⟩] 3
    (by rintro m hm v hv hne; simp_all; rw [← hv]; rfl)

/-! ### Sentiment categorization (C6). -/

/-- C6: `analyze_sentiment` categorizes `positive` exactly when
`score > 0.25`, `negative` exactly when `score < -0.25`, and otherwise
`family` exactly when the extracted entities contain a person, else
`neutral`; in particular a person entity with neutral score `-0.1` gives
`family`, not `neutral`. -/
theorem analyze_sentiment_category_spec (score magnitude : ℚ)
    (entities : List (String × String)) :
    ((analyze_sentiment score magnitude entities).category = "positive" ↔ 1/4 < score)
    ∧ ((analyze_sentiment score magnitude entities).category = "negative" ↔ score < -(1/4))
    ∧ (¬ 1/4 < score → ¬ score < -(1/4) →
        ((analyze_sentiment score magnitude entities).category = "family" ↔
          (extractEntities entities).people ≠ []))
    ∧ (¬ 1/4 < score → ¬ score < -(1/4) → (extractEntities entities).people = [] →
        (analyze_sentiment score magnitude entities).category = "neutral")
    ∧ (analyze_sentiment (-(1/10)) magnitude [("Alice", "PERSON")]).category = "family" := by
  refine ⟨?_, ?_, ?_, ?_, ?_⟩
  · simp only [analyze_sentiment, sentimentCategory]
    split_ifs with h1 h2 h3
    · exact iff_of_true rfl h1
    · exact iff_of_false (by decide) h1
    · exact iff_of_false (by decide) h1
    · exact iff_of_false (by decide) h1
  · simp only [analyze_sentiment, sentimentCategory]
    split_ifs with h1 h2 h3
    · exact iff_of_false (by decide) (fun hc => absurd h1 (not_lt.2 (by linarith)))
    · exact iff_of_true rfl h2
    · exact iff_of_false (by decide) h2
    · exact iff_of_false (by decide) h2
  · intro hn1 hn2
    simp only [analyze_sentiment, sentimentCategory]
    split_ifs with h1
    · exact iff_of_true rfl (List.ne_nil_of_length_pos h1)
    · exact iff_of_false (by decide) (fun hne => h1 (List.length_pos.2 hne))
  · intro hn1 hn2 hemp
    simp only [analyze_sentiment, sentimentCategory]
    split_ifs with h1
    · exact absurd h1 (by simp [hemp])
    · rfl
  · have hp : (extractEntities [("Alice", "PERSON")]).people = ["Alice"] := by decide
    simp only [analyze_sentiment, sentimentCategory, hp]
    rw [if_neg (by norm_num), if_neg (by norm_num), if_pos (by simp)]

theorem analyze_sentiment_category_spec_witness :
    (analyze_sentiment 0 0 [("Bob", "PERSON")]).category = "family" :=
  ((analyze_sentiment_category_spec 0 0 [("Bob", "PERSON")]).2.2.1
    (by norm_num) (by norm_num)).2 (by decide)

/-! ### Audio-message processing (C7). -/

/-- C7: an empty transcript makes `process_audio_message` return the
transcription-failure error dict, with no generation call and no
conversation write (the transcriber is spec-modelled, see
`SpeechToText`). -/
theorem process_audio_message_empty_transcript (stt : SpeechToText) (p : TextPipeline)
    (now : ℤ) (conv : List ConvMessage) (audio : List ℕ)
    (h : stt audio = "") :
    process_audio_message stt p now conv audio =
      ⟨.error "Could not understand the audio message", conv, 0, none⟩ := by
  simp [process_audio_message, h]

theorem process_audio_message_empty_transcript_witness :
    process_audio_message (fun _ => "") ⟨true, 0, 0, [], [], [], fun _ => none, "hello"⟩
      0 [] [1, 2] = ⟨.error "Could not understand the audio message", [], 0, none⟩ :=
  process_audio_message_empty_transcript _ _ _ _ _ rfl

/-! ### Conversation-based quiz seeding (C8). -/

/-- C8 (code bug): conversation-based quiz seeding always produces the
empty seed list, whatever conversation is stored, because
`retrieve_conversations` always takes the `days_limit > 0` path in which
`datetime.timedelta` raises AttributeError (swallowed into `[]`); the
filter/sort/truncate pipeline the claim describes is dead code. -/
theorem generate_quiz_conversation_seeds_always_empty
    (messages : Option (List ConvMessage)) :
    generate_quiz_conversation_seeds messages = []
    ∧ retrieve_conversations messages 30 50 = [] := by
  cases messages <;>
    simp [generate_quiz_conversation_seeds, retrieve_conversations]

/-! ### Anatomy of the quiz-response parser (towards C2 and C5). -/

theorem flushCur_modifyCur_length (st : ParseState) (f : QuizQuestion → QuizQuestion) :
    (flushCur (modifyCur st f)).length = (flushCur st).length := by
  cases hc : st.cur <;> simp [modifyCur, flushCur, hc]

theorem modifyCur_ctr (st : ParseState) (f : QuizQuestion → QuizQuestion) :
    (modifyCur st f).ctr = st.ctr := by
  cases hc : st.cur <;> simp [modifyCur, hc]

theorem mem_flushCur_modifyCur (st : ParseState) (f : QuizQuestion → QuizQuestion)
    (q : QuizQuestion) (h : q ∈ flushCur (modifyCur st f)) :
    q ∈ flushCur st ∨ ∃ q0, st.cur = some q0 ∧ q = f q0 ∧ q0 ∈ flushCur st := by
  obtain ⟨done, cur, ctr⟩ := st
  cases cur with
  | none => exact Or.inl h
  | some q0 =>
    have h2 : q ∈ done ++ [f q0] := h
    rcases List.mem_append.1 h2 with h1 | h1
    · exact Or.inl (List.mem_append_left _ h1)
    · exact Or.inr ⟨q0, rfl, by simpa using h1, by simp [flushCur]⟩

/-- Exhaustive description of one parser step on a stripped line: the state
is unchanged, or a new question opens, or the current question's fields are
updated in place (preserving its id, and each marker field unless that
marker fired). -/
theorem processStripped_cases (st : ParseState) (line : String) :
    (processStripped st line = st
      ∧ (pyStartsWith line "Q" && pyContains line ':') = false)
    ∨ ((pyStartsWith line "Q" && pyContains line ':') = true
      ∧ processStripped st line =
          ⟨flushCur st, some (blankQuestion st.ctr (pyStrip (pyAfterColon line))), st.ctr + 1⟩)
    ∨ (∃ f : QuizQuestion → QuizQuestion,
        processStripped st line = modifyCur st f
        ∧ (pyStartsWith line "Q" && pyContains line ':') = false
        ∧ (∀ q, (f q).qid = q.qid)
        ∧ (pyStartsWith line "CORRECT:" = false → ∀ q, (f q).correctAnswer = q.correctAnswer)
        ∧ (pyStartsWith line "EXPLANATION:" = false → ∀ q, (f q).explanation = q.explanation)
        ∧ (pyStartsWith line "CATEGORY:" = false → ∀ q, (f q).category = q.category)) := by
  unfold processStripped
  split_ifs with h1 h2 h3 h4 h5 h6
  · refine Or.inl ⟨rfl, ?_⟩
    rw [h1]
    decide
  · exact Or.inr (Or.inl ⟨h2, rfl⟩)
  · refine Or.inr (Or.inr ⟨_, rfl, Bool.eq_false_iff.2 h2, fun q => rfl,
      fun _ q => rfl, fun _ q => rfl, fun _ q => rfl⟩)
  · refine Or.inr (Or.inr ⟨_, rfl, Bool.eq_false_iff.2 h2, fun q => rfl,
      ?_, fun _ q => rfl, fun _ q => rfl⟩)
    intro hfalse
    rw [h4] at hfalse
    cases hfalse
  · refine Or.inr (Or.inr ⟨_, rfl, Bool.eq_false_iff.2 h2, fun q => rfl,
      fun _ q => rfl, ?_, fun _ q => rfl⟩)
    intro hfalse
    rw [h5] at hfalse
    cases hfalse
  · refine Or.inr (Or.inr ⟨_, rfl, Bool.eq_false_iff.2 h2, fun q => rfl,
      fun _ q => rfl, fun _ q => rfl, ?_⟩)
    intro hfalse
    rw [h6] at hfalse
    cases hfalse
  · exact Or.inl ⟨rfl, Bool.eq_false_iff.2 h2⟩

/-- The parser numbers the flushed and current questions `0, 1, 2, ...`:
uuid freshness, determinized. -/
theorem foldl_processLine_qids (lines : List String) (st : ParseState)
    (h : (flushCur st).map QuizQuestion.qid = List.range st.ctr) :
    (flushCur (lines.foldl processLine st)).map QuizQuestion.qid =
      List.range (lines.foldl processLine st).ctr := by
  induction lines generalizing st with
  | nil => exact h
  | cons l ls ih =>
    rw [List.foldl_cons]
    refine ih _ ?_
    show (flushCur (processLine st l)).map QuizQuestion.qid = List.range (processLine st l).ctr
    unfold processLine
    rcases processStripped_cases st (pyStrip l) with ⟨heq, _⟩ | ⟨_, heq⟩ | ⟨f, heq, _, hqid, _, _, _⟩
    · rw [heq]; exact h
    · rw [heq]
      show (flushCur st ++ [blankQuestion st.ctr (pyStrip (pyAfterColon (pyStrip l)))]).map
          QuizQuestion.qid = List.range (st.ctr + 1)
      rw [List.map_append, h, List.range_succ]
      rfl
    · rw [heq]
      have hm : (flushCur (modifyCur st f)).map QuizQuestion.qid =
          (flushCur st).map QuizQuestion.qid := by
        cases hc : st.cur <;> simp [modifyCur, flushCur, hc, hqid]
      rw [hm, modifyCur_ctr]
      exact h

theorem parse_quiz_response_qid_range (raw : String) :
    (parse_quiz_response raw).map QuizQuestion.qid =
      List.range ((pyLines (pyStrip raw)).foldl processLine ⟨[], none, 0⟩).ctr := by
  unfold parse_quiz_response
  exact foldl_processLine_qids _ _ (by simp [flushCur])

theorem parse_quiz_response_qid_nodup (raw : String) :
    ((parse_quiz_response raw).map QuizQuestion.qid).Nodup := by
  rw [parse_quiz_response_qid_range]
  exact List.nodup_range _

/-- Generic preservation of a per-question property along the parse loop. -/
theorem foldl_processLine_pres (P : QuizQuestion → Prop) (lines : List String)
    (st : ParseState)
    (hstep : ∀ l ∈ lines, ∀ st2 : ParseState, (∀ q ∈ flushCur st2, P q) →
      ∀ q ∈ flushCur (processLine st2 l), P q)
    (h : ∀ q ∈ flushCur st, P q) :
    ∀ q ∈ flushCur (lines.foldl processLine st), P q := by
  induction lines generalizing st with
  | nil => exact h
  | cons l ls ih =>
    rw [List.foldl_cons]
    exact ih _ (fun l2 hl2 => hstep l2 (List.mem_cons_of_mem _ hl2))
      (hstep l (List.mem_cons_self _ _) st h)

theorem processLine_pres_correctAnswer (l : String) (st : ParseState)
    (hl : pyStartsWith (pyStrip l) "CORRECT:" = false)
    (h : ∀ q ∈ flushCur st, q.correctAnswer = none) :
    ∀ q ∈ flushCur (processLine st l), q.correctAnswer = none := by
  intro q hq
  unfold processLine at hq
  rcases processStripped_cases st (pyStrip l) with ⟨heq, _⟩ | ⟨_, heq⟩ | ⟨f, heq, _, _, hpres, _, _⟩
  · rw [heq] at hq; exact h q hq
  · rw [heq] at hq
    rcases List.mem_append.1 hq with h1 | h1
    · exact h q h1
    · have hq2 : q = blankQuestion st.ctr (pyStrip (pyAfterColon (pyStrip l))) := by
        simpa using h1
      rw [hq2]
      rfl
  · rw [heq] at hq
    rcases mem_flushCur_modifyCur st f q hq with h1 | ⟨q0, _, rfl, hq0⟩
    · exact h q h1
    · rw [hpres hl q0]
      exact h q0 hq0

theorem processLine_pres_explanation (l : String) (st : ParseState)
    (hl : pyStartsWith (pyStrip l) "EXPLANATION:" = false)
    (h : ∀ q ∈ flushCur st, q.explanation = none) :
    ∀ q ∈ flushCur (processLine st l), q.explanation = none := by
  intro q hq
  unfold processLine at hq
  rcases processStripped_cases st (pyStrip l) with ⟨heq, _⟩ | ⟨_, heq⟩ | ⟨f, heq, _, _, _, hpres, _⟩
  · rw [heq] at hq; exact h q hq
  · rw [heq] at hq
    rcases List.mem_append.1 hq with h1 | h1
    · exact h q h1
    · have hq2 : q = blankQuestion st.ctr (pyStrip (pyAfterColon (pyStrip l))) := by
        simpa using h1
      rw [hq2]
      rfl
  · rw [heq] at hq
    rcases mem_flushCur_modifyCur st f q hq with h1 | ⟨q0, _, rfl, hq0⟩
    · exact h q h1
    · rw [hpres hl q0]
      exact h q0 hq0

theorem processLine_pres_category (l : String) (st : ParseState)
    (hl : pyStartsWith (pyStrip l) "CATEGORY:" = false)
    (h : ∀ q ∈ flushCur st, q.category = none) :
    ∀ q ∈ flushCur (processLine st l), q.category = none := by
  intro q hq
  unfold processLine at hq
  rcases processStripped_cases st (pyStrip l) with ⟨heq, _⟩ | ⟨_, heq⟩ | ⟨f, heq, _, _, _, _, hpres⟩
  · rw [heq] at hq; exact h q hq
  · rw [heq] at hq
    rcases List.mem_append.1 hq with h1 | h1
    · exact h q h1
    · have hq2 : q = blankQuestion st.ctr (pyStrip (pyAfterColon (pyStrip l))) := by
        simpa using h1
      rw [hq2]
      rfl
  · rw [heq] at hq
    rcases mem_flushCur_modifyCur st f q hq with h1 | ⟨q0, _, rfl, hq0⟩
    · exact h q h1
    · rw [hpres hl q0]
      exact h q0 hq0

theorem isQMarkerLine_eq (raw : String) :
    isQMarkerLine raw = (pyStartsWith (pyStrip raw) "Q" && pyContains (pyStrip raw) ':') := by
  unfold isQMarkerLine
  by_cases h : pyStrip raw = ""
  · rw [h]
    decide
  · have hb : (pyStrip raw == "") = false := by
      simp [h]
    rw [hb]
    simp

/-- Every `Q...:` line contributes exactly one retained question. -/
theorem foldl_processLine_count (lines : List String) (st : ParseState) :
    (flushCur (lines.foldl processLine st)).length =
      (flushCur st).length + lines.countP isQMarkerLine := by
  induction lines generalizing st with
  | nil => simp
  | cons l ls ih =>
    rw [List.foldl_cons, ih, List.countP_cons]
    have hstep : (flushCur (processLine st l)).length =
        (flushCur st).length + (if isQMarkerLine l then 1 else 0) := by
      unfold processLine
      rcases processStripped_cases st (pyStrip l) with ⟨heq, hQ⟩ | ⟨hQ, heq⟩ | ⟨f, heq, hQ, _⟩
      · rw [heq, isQMarkerLine_eq, hQ]
        simp
      · rw [heq, isQMarkerLine_eq, hQ]
        simp [flushCur]
        omega
      · rw [heq, isQMarkerLine_eq, hQ, flushCur_modifyCur_length]
        simp
    rw [hstep]
    by_cases hc : isQMarkerLine l
    · simp [hc]
      omega
    · simp [hc]

/-! ### The quiz-session invariant (C2, C3, C4). -/

/-- When every question is answered (equal lengths, distinct ids, every
answer answering an existing question), every question id occurs among the
answers. -/
theorem answered_ids_complete (s : QuizSession)
    (_hqN : (s.questions.map QuizQuestion.qid).Nodup)
    (haN : (s.answers.map QuizAnswer.questionId).Nodup)
    (haSub : ∀ a ∈ s.answers, a.questionId ∈ s.questions.map QuizQuestion.qid)
    (heq : s.answers.length = s.questions.length) :
    ∀ x ∈ s.questions.map QuizQuestion.qid, x ∈ s.answers.map QuizAnswer.questionId := by
  have hsub : List.Subperm (s.answers.map QuizAnswer.questionId)
      (s.questions.map QuizQuestion.qid) :=
    List.subperm_of_subset haN (fun x hx => by
      rcases List.mem_map.1 hx with ⟨a, hamem, hxeq⟩
      rw [← hxeq]
      exact haSub a hamem)
  rcases hsub with ⟨l2, hperm, hsl⟩
  have hlen2 : (s.questions.map QuizQuestion.qid).length ≤ l2.length := by
    rw [hperm.length_eq, List.length_map, List.length_map, heq]
  have hl2 : l2 = s.questions.map QuizQuestion.qid := hsl.eq_of_length_le hlen2
  intro x hx
  rw [← hl2] at hx
  exact hperm.mem_iff.1 hx

theorem record_preserves_SessionInv (s : QuizSession) (qid : ℕ) (sel : String)
    (h : SessionInv s) : SessionInv (record_quiz_answer s qid sel).1 := by
  obtain ⟨hqN, haN, haSub, hiff⟩ := h
  cases hfq : s.questions.find? (fun q => q.qid == qid) with
  | none =>
    simp only [record_quiz_answer, hfq]
    exact ⟨hqN, haN, haSub, hiff⟩
  | some q =>
    cases hfa : s.answers.find? (fun a => a.questionId == qid) with
    | some a =>
      simp only [record_quiz_answer, hfq, hfa]
      exact ⟨hqN, haN, haSub, hiff⟩
    | none =>
      have hqqid : q.qid = qid := by simpa using List.find?_some hfq
      have hqmem : q ∈ s.questions := List.mem_of_find?_eq_some hfq
      have hqidmem : qid ∈ s.questions.map QuizQuestion.qid :=
        List.mem_map.2 ⟨q, hqmem, hqqid⟩
      have hnotans : qid ∉ s.answers.map QuizAnswer.questionId := by
        intro hmem
        rcases List.mem_map.1 hmem with ⟨a, hamem, haeq⟩
        have := List.find?_eq_none.1 hfa a hamem
        simp [haeq] at this
      have haN2 : ((s.answers ++
          ([⟨qid, sel, q.correctAnswer, answerIsCorrect q sel⟩] : List QuizAnswer)).map
            QuizAnswer.questionId).Nodup := by
        rw [List.map_append, List.nodup_append]
        refine ⟨haN, by simp, ?_⟩
        intro x hx hx2
        have hx3 : x = qid := by simpa using hx2
        rw [hx3] at hx
        exact hnotans hx
      have haSub2 : ∀ a ∈ s.answers ++
          ([⟨qid, sel, q.correctAnswer, answerIsCorrect q sel⟩] : List QuizAnswer),
          a.questionId ∈ s.questions.map QuizQuestion.qid := by
        intro a ha
        rcases List.mem_append.1 ha with h1 | h1
        · exact haSub a h1
        · rw [List.mem_singleton.1 h1]
          exact hqidmem
      simp only [record_quiz_answer, hfq, hfa]
      by_cases hlen : (s.answers ++
          ([⟨qid, sel, q.correctAnswer, answerIsCorrect q sel⟩] : List QuizAnswer)).length =
            s.questions.length
      · rw [if_pos hlen]
        refine ⟨hqN, haN2, haSub2, ?_⟩
        refine iff_of_true rfl ⟨?_, hlen⟩
        show 0 < s.questions.length
        have hlen2 : s.answers.length + 1 = s.questions.length := by
          rw [← hlen]
          simp
        omega
      · rw [if_neg hlen]
        refine ⟨hqN, haN2, haSub2, ?_⟩
        refine iff_of_false (fun hcompl => ?_) (fun hcon => hlen hcon.2)
        obtain ⟨hpos0, heq0⟩ := hiff.mp hcompl
        exact hnotans (answered_ids_complete s hqN haN haSub heq0 qid hqidmem)

theorem record_completed_unchanged (s : QuizSession) (h : SessionInv s)
    (hc : s.status = "completed") (qid : ℕ) (sel : String) :
    (record_quiz_answer s qid sel).1 = s := by
  obtain ⟨hqN, haN, haSub, hiff⟩ := h
  obtain ⟨hpos, heq⟩ := hiff.mp hc
  cases hfq : s.questions.find? (fun q => q.qid == qid) with
  | none => simp [record_quiz_answer, hfq]
  | some q =>
    have hqqid : q.qid = qid := by simpa using List.find?_some hfq
    have hqmem : q ∈ s.questions := List.mem_of_find?_eq_some hfq
    have hin : qid ∈ s.answers.map QuizAnswer.questionId :=
      answered_ids_complete s hqN haN haSub heq qid (List.mem_map.2 ⟨q, hqmem, hqqid⟩)
    rcases List.mem_map.1 hin with ⟨a, hamem, haeq⟩
    cases hfa : s.answers.find? (fun a2 => a2.questionId == qid) with
    | none =>
      have := List.find?_eq_none.1 hfa a hamem
      simp [haeq] at this
    | some a2 => simp [record_quiz_answer, hfq, hfa]

theorem initSession_SessionInv (raw : String) :
    SessionInv (initSession (parse_quiz_response raw)) := by
  refine ⟨parse_quiz_response_qid_nodup raw, by simp [initSession], by simp [initSession], ?_⟩
  exact iff_of_false (by simp [initSession]) (fun hcon => by
    have h1 := hcon.1
    have h2 := hcon.2
    simp [initSession] at h1 h2
    omega)

theorem reachable_SessionInv (s : QuizSession) (h : ReachableSession s) : SessionInv s := by
  induction h with
  | init raw => exact initSession_SessionInv raw
  | step s qid sel hr ih => exact record_preserves_SessionInv s qid sel ih

/-- C2 (amended): every reachable session has at most as many answers as
questions, no two answers for the same question, `status = "completed"`
exactly when the session has at least one question and all are answered
(the original claim's plain `iff` fails on sessions whose parsed question
list is empty — see the counterexample), and a completed session is
terminal: any further `record_quiz_answer` leaves it unchanged. -/
theorem quiz_session_invariant (s : QuizSession) (hs : ReachableSession s) :
    s.answers.length ≤ s.questions.length
    ∧ (s.answers.map QuizAnswer.questionId).Nodup
    ∧ (s.status = "completed" ↔
        (0 < s.questions.length ∧ s.answers.length = s.questions.length))
    ∧ (s.status = "completed" → ∀ qid sel, (record_quiz_answer s qid sel).1 = s) := by
  obtain ⟨hqN, haN, haSub, hiff⟩ := reachable_SessionInv s hs
  refine ⟨?_, haN, hiff,
    fun hc qid sel => record_completed_unchanged s ⟨hqN, haN, haSub, hiff⟩ hc qid sel⟩
  have hsub : List.Subperm (s.answers.map QuizAnswer.questionId)
      (s.questions.map QuizQuestion.qid) :=
    List.subperm_of_subset haN (fun x hx => by
      rcases List.mem_map.1 hx with ⟨a, hamem, hxeq⟩
      rw [← hxeq]
      exact haSub a hamem)
  have := hsub.length_le
  simpa using this

theorem quiz_session_invariant_witness :
    (initSession (parse_quiz_response "Q1: a\nCORRECT: A")).answers.length ≤
        (initSession (parse_quiz_response "Q1: a\nCORRECT: A")).questions.length
    ∧ ((initSession (parse_quiz_response "Q1: a\nCORRECT: A")).answers.map
        QuizAnswer.questionId).Nodup
    ∧ ((initSession (parse_quiz_response "Q1: a\nCORRECT: A")).status = "completed" ↔
        (0 < (initSession (parse_quiz_response "Q1: a\nCORRECT: A")).questions.length
          ∧ (initSession (parse_quiz_response "Q1: a\nCORRECT: A")).answers.length =
            (initSession (parse_quiz_response "Q1: a\nCORRECT: A")).questions.length))
    ∧ ((initSession (parse_quiz_response "Q1: a\nCORRECT: A")).status = "completed" →
        ∀ qid sel, (record_quiz_answer (initSession (parse_quiz_response "Q1: a\nCORRECT: A"))
          qid sel).1 = initSession (parse_quiz_response "Q1: a\nCORRECT: A")) :=
  quiz_session_invariant _ (.init "Q1: a\nCORRECT: A")

/-- C2, counterexample to the claim as stated: a reachable session (the
model's response parsed to zero questions) that is not `"completed"` even
though `len(answers) == len(questions)`, falsifying the unguarded
`status == completed ↔ len(answers) == len(questions)`. -/
theorem quiz_session_invariant_counterexample :
    ReachableSession (initSession (parse_quiz_response ""))
    ∧ (initSession (parse_quiz_response "")).status ≠ "completed"
    ∧ (initSession (parse_quiz_response "")).answers.length =
        (initSession (parse_quiz_response "")).questions.length :=
  ⟨.init "", by decide, by decide⟩

/-- C4: answering a question that already has a recorded answer returns the
duplicate-answer error dict and leaves the stored session (answers, status
and score) unchanged. -/
theorem record_quiz_answer_duplicate (s : QuizSession) (qid : ℕ) (sel : String)
    (hq : qid ∈ s.questions.map QuizQuestion.qid)
    (ha : ∃ a ∈ s.answers, a.questionId = qid) :
    record_quiz_answer s qid sel = (s, .error "This question has already been answered") := by
  rcases List.mem_map.1 hq with ⟨q, hqmem, hqid⟩
  cases hfq : s.questions.find? (fun q2 => q2.qid == qid) with
  | none =>
    have := List.find?_eq_none.1 hfq q hqmem
    simp [hqid] at this
  | some q2 =>
    rcases ha with ⟨a, hamem, haid⟩
    cases hfa : s.answers.find? (fun a2 => a2.questionId == qid) with
    | none =>
      have := List.find?_eq_none.1 hfa a hamem
      simp [haid] at this
    | some a2 => simp [record_quiz_answer, hfq, hfa]

theorem record_quiz_answer_duplicate_witness :
    record_quiz_answer ⟨[⟨0, "t", [("A", "x")], some "A", none, none⟩],
        [⟨0, "A", some "A", true⟩], "completed", some 100⟩ 0 "B" =
      (⟨[⟨0, "t", [("A", "x")], some "A", none, none⟩],
        [⟨0, "A", some "A", true⟩], "completed", some 100⟩,
        .error "This question has already been answered") :=
  record_quiz_answer_duplicate _ 0 "B" (by decide)
    ⟨⟨0, "A", some "A", true⟩, by decide, rfl⟩

/-- C3, counterexample to `round`: completing a 3-question quiz with 2
correct answers stores `int((2/3)*100) = 66`, while the claimed
`round(100*2/3)` is `67`. -/
theorem record_quiz_answer_score_round_counterexample :
    (record_quiz_answer (record_quiz_answer (record_quiz_answer
        (initSession (parse_quiz_response
          "Q1: a\nCORRECT: A\nQ2: b\nCORRECT: A\nQ3: c\nCORRECT: A"))
        0 "A").1 1 "A").1 2 "B").1.score = some 66
    ∧ (round ((100 * 2 : ℚ) / 3) : ℤ) = 67 := by
  constructor
  · decide
  · norm_num [round_eq]

/-- C3 (amended): when the recorded answer completes the quiz the stored
score is the *truncation* `int((correct/total)*100) = ⌊100·correct/total⌋`
(not `round`); the score (and status) are untouched by non-completing and
failing calls; and the 5-question, 3-correct example still scores 60
(where truncation and rounding agree). -/
theorem record_quiz_answer_score_spec (s : QuizSession) (qid : ℕ) (sel : String)
    (r : RecordResult) (e : String) :
    ((record_quiz_answer s qid sel).2 = Except.ok r → r.allQuestionsAnswered = true →
      (record_quiz_answer s qid sel).1.score =
        some ((((record_quiz_answer s qid sel).1.answers.filter
          (fun a => a.isCorrect)).length * 100) / s.questions.length))
    ∧ ((record_quiz_answer s qid sel).2 = Except.ok r → r.allQuestionsAnswered = false →
      (record_quiz_answer s qid sel).1.score = s.score
        ∧ (record_quiz_answer s qid sel).1.status = s.status)
    ∧ ((record_quiz_answer s qid sel).2 = Except.error e →
      (record_quiz_answer s qid sel).1 = s)
    ∧ (record_quiz_answer (record_quiz_answer (record_quiz_answer (record_quiz_answer
        (record_quiz_answer (initSession (parse_quiz_response
          "Q1: a\nCORRECT: A\nQ2: b\nCORRECT: A\nQ3: c\nCORRECT: A\nQ4: d\nCORRECT: A\nQ5: e\nCORRECT: A"))
        0 "A").1 1 "A").1 2 "A").1 3 "B").1 4 "B").1.score = some 60 := by
  cases hfq : s.questions.find? (fun q2 => q2.qid == qid) with
  | none =>
    have hfst : (record_quiz_answer s qid sel).1 = s := by
      simp [record_quiz_answer, hfq]
    have hsnd : (record_quiz_answer s qid sel).2 =
        Except.error "Question not found in this quiz" := by
      simp [record_quiz_answer, hfq]
    refine ⟨?_, ?_, ?_, by decide⟩
    · intro h
      rw [hsnd] at h
      simp at h
    · intro h
      rw [hsnd] at h
      simp at h
    · intro h
      rw [hfst]
  | some q =>
    cases hfa : s.answers.find? (fun a2 => a2.questionId == qid) with
    | some a =>
      have hfst : (record_quiz_answer s qid sel).1 = s := by
        simp [record_quiz_answer, hfq, hfa]
      have hsnd : (record_quiz_answer s qid sel).2 =
          Except.error "This question has already been answered" := by
        simp [record_quiz_answer, hfq, hfa]
      refine ⟨?_, ?_, ?_, by decide⟩
      · intro h
        rw [hsnd] at h
        simp at h
      · intro h
        rw [hsnd] at h
        simp at h
      · intro h
        rw [hfst]
    | none =>
      by_cases hlen : (s.answers ++
          ([⟨qid, sel, q.correctAnswer, answerIsCorrect q sel⟩] : List QuizAnswer)).length =
            s.questions.length
      · have hfst : (record_quiz_answer s qid sel).1 =
            { s with
              answers := s.answers ++
                ([⟨qid, sel, q.correctAnswer, answerIsCorrect q sel⟩] : List QuizAnswer),
              status := "completed",
              score := some ((((s.answers ++
                ([⟨qid, sel, q.correctAnswer, answerIsCorrect q sel⟩] : List QuizAnswer)).filter
                  (fun a2 => a2.isCorrect)).length * 100) / s.questions.length) } := by
          simp [record_quiz_answer, hfq, hfa, hlen]
        have hsnd : (record_quiz_answer s qid sel).2 =
            Except.ok ⟨answerIsCorrect q sel, q.correctAnswer, q.explanation.getD "", true⟩ := by
          simp [record_quiz_answer, hfq, hfa, hlen]
        refine ⟨?_, ?_, ?_, by decide⟩
        · intro h hall
          rw [hfst]
        · intro h hall
          rw [hsnd] at h
          rw [← Except.ok.inj h] at hall
          simp at hall
        · intro h
          rw [hsnd] at h
          simp at h
      · have hlen2 : ¬(s.answers.length + 1 = s.questions.length) := by
          intro hcon
          exact hlen (by simpa using hcon)
        have hfst : (record_quiz_answer s qid sel).1 =
            { s with
              answers := s.answers ++
                ([⟨qid, sel, q.correctAnswer, answerIsCorrect q sel⟩] : List QuizAnswer) } := by
          simp [record_quiz_answer, hfq, hfa, hlen2]
        have hsnd : (record_quiz_answer s qid sel).2 =
            Except.ok ⟨answerIsCorrect q sel, q.correctAnswer, q.explanation.getD "", false⟩ := by
          simp [record_quiz_answer, hfq, hfa, hlen2]
        refine ⟨?_, ?_, ?_, by decide⟩
        · intro h hall
          rw [hsnd] at h
          rw [← Except.ok.inj h] at hall
          simp at hall
        · intro h hall
          rw [hfst]
          exact ⟨rfl, rfl⟩
        · intro h
          rw [hsnd] at h
          simp at h

theorem record_quiz_answer_score_spec_witness :
    (record_quiz_answer (initSession (parse_quiz_response "Q1: x\nCORRECT: A")) 0 "A").1.score =
      some ((((record_quiz_answer (initSession (parse_quiz_response "Q1: x\nCORRECT: A"))
          0 "A").1.answers.filter (fun a => a.isCorrect)).length * 100) /
        (initSession (parse_quiz_response "Q1: x\nCORRECT: A")).questions.length) :=
  (record_quiz_answer_score_spec (initSession (parse_quiz_response "Q1: x\nCORRECT: A"))
    0 "A" ⟨true, some "A", "", true⟩ "").1 rfl rfl

/-! ### The quiz-response parser never raises and degrades field-by-field (C5). -/

/-- C5: the parser is a total function (it cannot raise); when no
`CORRECT:` / `EXPLANATION:` / `CATEGORY:` marker line occurs the
corresponding field is absent on every parsed question, while every
`Q...:` line still contributes exactly one retained question; and a
question lacking `correctAnswer` can never be answered correctly —
`record_quiz_answer`'s comparison yields `false` for every option A–D. -/
theorem parse_quiz_response_malformed_spec (resp : String) (q : QuizQuestion) (sel : String) :
    ((∀ l ∈ pyLines (pyStrip resp), pyStartsWith (pyStrip l) "CORRECT:" = false) →
      ∀ q2 ∈ parse_quiz_response resp, q2.correctAnswer = none)
    ∧ ((∀ l ∈ pyLines (pyStrip resp), pyStartsWith (pyStrip l) "EXPLANATION:" = false) →
      ∀ q2 ∈ parse_quiz_response resp, q2.explanation = none)
    ∧ ((∀ l ∈ pyLines (pyStrip resp), pyStartsWith (pyStrip l) "CATEGORY:" = false) →
      ∀ q2 ∈ parse_quiz_response resp, q2.category = none)
    ∧ (parse_quiz_response resp).length = (pyLines (pyStrip resp)).countP isQMarkerLine
    ∧ (q.correctAnswer = none → sel ∈ (["A", "B", "C", "D"] : List String) →
        answerIsCorrect q sel = false) := by
  refine ⟨?_, ?_, ?_, ?_, ?_⟩
  · intro hl
    unfold parse_quiz_response
    exact foldl_processLine_pres (fun q2 => q2.correctAnswer = none) _ _
      (fun l hlm st2 hst => processLine_pres_correctAnswer l st2 (hl l hlm) hst)
      (by simp [flushCur])
  · intro hl
    unfold parse_quiz_response
    exact foldl_processLine_pres (fun q2 => q2.explanation = none) _ _
      (fun l hlm st2 hst => processLine_pres_explanation l st2 (hl l hlm) hst)
      (by simp [flushCur])
  · intro hl
    unfold parse_quiz_response
    exact foldl_processLine_pres (fun q2 => q2.category = none) _ _
      (fun l hlm st2 hst => processLine_pres_category l st2 (hl l hlm) hst)
      (by simp [flushCur])
  · unfold parse_quiz_response
    rw [foldl_processLine_count]
    simp [flushCur]
  · intro hnone hsel
    simp [answerIsCorrect, hnone]

theorem parse_quiz_response_malformed_spec_witness :
    (parse_quiz_response "Q1: Who?\nA. X\nB. Y").length = 1
    ∧ answerIsCorrect ⟨0, "Who?", [("A", "X"), ("B", "Y")], none, none, none⟩ "A" = false := by
  constructor
  · rw [(parse_quiz_response_malformed_spec "Q1: Who?\nA. X\nB. Y"
      ⟨0, "Who?", [("A", "X"), ("B", "Y")], none, none, none⟩ "A").2.2.2.1]
    decide
  · exact (parse_quiz_response_malformed_spec "Q1: Who?\nA. X\nB. Y"
      ⟨0, "Who?", [("A", "X"), ("B", "Y")], none, none, none⟩ "A").2.2.2.2 rfl (by decide)

end Memento
